import Mathlib

/-!
Verification of the `bitwarden-to-pass` migration script.

The definitions below are a shallow embedding of `bitwarden-to-pass.py`:
JSON item records become structures whose optional fields model JSON null,
Python dicts become insertion-ordered association lists, fallible code
(raised exceptions) returns `Option`, and the destination password store
becomes a finite list of named entries.  Derived closed forms of the
formatting blocks are defined after the faithful definitions and proved
equal to them, so that the claims can be stated over explicit lists.
-/

/-- One element of a login payload's `uris` list; `uri` is the value of its
`uri` key, `none` when that value is JSON null. -/
structure URIEntry where
  uri : Option String
deriving DecidableEq

/-- One element of an item's `fields` list (a custom field). -/
structure CustomField where
  name : String
  value : Option String
deriving DecidableEq

/-- One element of an item's `attachments` list. -/
structure Attachment where
  fileName : Option String
  sizeName : Option String
  url : Option String
deriving DecidableEq

/-- The `login` payload of a login item.  A `uris` value of `none` models an
absent `uris` key, read through `login.get('uris', [])`. -/
structure LoginData where
  username : Option String
  password : Option String
  totp : Option String
  uris : Option (List URIEntry)
deriving DecidableEq

/-- The `card` payload of a card item. -/
structure CardData where
  cardholderName : Option String
  brand : Option String
  number : Option String
  expMonth : Option String
  expYear : Option String
  code : Option String
deriving DecidableEq

/-- The `identity` payload of an identity item. -/
structure IdentityData where
  title : Option String
  firstName : Option String
  middleName : Option String
  lastName : Option String
  address1 : Option String
  address2 : Option String
  address3 : Option String
  city : Option String
  state : Option String
  postalCode : Option String
  country : Option String
  company : Option String
  email : Option String
  phone : Option String
  ssn : Option String
  username : Option String
  passportNumber : Option String
  licenseNumber : Option String
deriving DecidableEq

/-- One source item record, as parsed from `bw list items`.  The payload
fields are `none` when the corresponding key is missing (reading them then
raises in the source); `fields` and `attachments` are read through
`item.get(..., [])`, so `none` models an absent key there. -/
structure BWItem where
  id : String
  name : String
  type : Int
  login : Option LoginData
  card : Option CardData
  identity : Option IdentityData
  fields : Option (List CustomField)
  attachments : Option (List Attachment)
  notes : Option String
deriving DecidableEq

/-- Decimal digit characters, used to embed Python `str(n)` on the natural
numbers that appear in generated labels. -/
def digitChar : Nat → Char
  | 0 => '0'
  | 1 => '1'
  | 2 => '2'
  | 3 => '3'
  | 4 => '4'
  | 5 => '5'
  | 6 => '6'
  | 7 => '7'
  | 8 => '8'
  | 9 => '9'
  | _ => '*'

/-- Fuel-driven decimal rendering; the fuel is only there to make the
recursion structural, `natChars` instantiates it with the number itself. -/
def natCharsAux : Nat → Nat → List Char
  | 0, n => [digitChar n]
  | fuel + 1, n =>
    if n < 10 then [digitChar n] else natCharsAux fuel (n / 10) ++ [digitChar (n % 10)]

/-- The decimal digits of `n`, most significant first. -/
def natChars (n : Nat) : List Char := natCharsAux n n

/-- Embeds Python `str(n)` for a nonnegative integer `n`. -/
def natStr (n : Nat) : String := String.mk (natChars n)

/-- Embeds Python `str` as applied by `'{}'.format(v)` to a value that is a
string or `None`: `None` renders as the text `None`. -/
def pyStr : Option String → String
  | none => "None"
  | some s => s

/-- One Python dict entry: a key and a value that is a string or `None`. -/
abbrev Entry := String × Option String

/-- Assignment `d[k] = v` on an insertion-ordered Python dict: an existing
key keeps its position and receives the new value, a new key is appended. -/
def dinsert (d : List Entry) (k : String) (v : Option String) : List Entry :=
  if d.any (fun p => p.1 == k) then d.map (fun p => if p.1 == k then (k, v) else p)
  else d ++ [(k, v)]

/-- Embeds Python `d.update(sub)`: assigns each entry of `sub` in order. -/
def dupdate (d sub : List Entry) : List Entry :=
  sub.foldl (fun acc p => dinsert acc p.1 p.2) d

/-- Embeds `BWItem.item_type` (lines 21-27); `none` embeds the raised
`Unknown item type` exception. -/
def BWItem.item_type (it : BWItem) : Option String :=
  if it.type = 1 then some "login"
  else if it.type = 2 then some "note"
  else if it.type = 3 then some "card"
  else if it.type = 4 then some "identity"
  else none

/-- ASCII model of Python `str.lower`, character by character. -/
def lowerChar : Char → Char
  | 'A' => 'a'
  | 'B' => 'b'
  | 'C' => 'c'
  | 'D' => 'd'
  | 'E' => 'e'
  | 'F' => 'f'
  | 'G' => 'g'
  | 'H' => 'h'
  | 'I' => 'i'
  | 'J' => 'j'
  | 'K' => 'k'
  | 'L' => 'l'
  | 'M' => 'm'
  | 'N' => 'n'
  | 'O' => 'o'
  | 'P' => 'p'
  | 'Q' => 'q'
  | 'R' => 'r'
  | 'S' => 's'
  | 'T' => 't'
  | 'U' => 'u'
  | 'V' => 'v'
  | 'W' => 'w'
  | 'X' => 'x'
  | 'Y' => 'y'
  | 'Z' => 'z'
  | c => c

/-- Embeds `name.lower()`. -/
def lowerStr (s : String) : String := String.mk (s.data.map lowerChar)

/-- The character substitution of `re.sub('[-_|]', ' ', name)`. -/
def sepRepl (c : Char) : Char := if c = '-' ∨ c = '_' ∨ c = '|' then ' ' else c

/-- Embeds `re.sub('[-_|]', ' ', name)`. -/
def sepToSpace (s : String) : String := String.mk (s.data.map sepRepl)

/-- Embeds `re.sub(' +', '-', name)`: each maximal run of one or more spaces
becomes a single hyphen.  The flag records whether the previous character was
part of a space run that already produced its hyphen. -/
def collapseAux : Bool → List Char → List Char
  | _, [] => []
  | inRun, c :: rest =>
    if c = ' ' then (if inRun then collapseAux true rest else '-' :: collapseAux true rest)
    else c :: collapseAux false rest

/-- Embeds `re.sub(' +', '-', name)`. -/
def collapseSpaces (s : String) : String := String.mk (collapseAux false s.data)

/-- Embeds `s.split('-')[0]`: the part of `s` before the first hyphen. -/
def splitHead (s : String) : String := String.mk (s.data.takeWhile (fun c => c != '-'))

/-- Embeds the Python slice `s[0:n]`. -/
def strTake (s : String) (n : Nat) : String := String.mk (s.data.take n)

/-- Hexadecimal digit characters, as the specification's "hex characters of
identifier" reads them. -/
def isHexChar (c : Char) : Bool := "0123456789abcdefABCDEF".data.contains c

/-- Embeds `BWItem.passname` (lines 14-19); `none` embeds the exception
raised by `item_type` on an unknown type code. -/
def BWItem.passname (it : BWItem) : Option String :=
  it.item_type.map (fun label =>
    lowerStr (collapseSpaces (sepToSpace it.name)) ++ "-" ++ label ++ "-" ++
      strTake (splitHead it.id) 4)

/-- Embeds `BWItem.format_card` (lines 29-36). -/
def BWItem.format_card (card : CardData) : List Entry :=
  let d := dinsert [] "Card Holder Name" card.cardholderName
  let d := dinsert d "Card Brand" card.brand
  let d := dinsert d "Card Number" card.number
  let d := dinsert d "Card Expire MM/YYYY" (some (pyStr card.expMonth ++ "/" ++ pyStr card.expYear))
  let d := dinsert d "Card Security Code" card.code
  d

/-- Embeds `BWItem.format_identity` (lines 38-58). -/
def BWItem.format_identity (identity : IdentityData) : List Entry :=
  let d := dinsert [] "ID Title" identity.title
  let d := dinsert d "ID FirstName" identity.firstName
  let d := dinsert d "ID MiddleName" identity.middleName
  let d := dinsert d "ID LastName" identity.lastName
  let d := dinsert d "ID Address1" identity.address1
  let d := dinsert d "ID Address2" identity.address2
  let d := dinsert d "ID Address3" identity.address3
  let d := dinsert d "ID City" identity.city
  let d := dinsert d "ID State" identity.state
  let d := dinsert d "ID PostalCode" identity.postalCode
  let d := dinsert d "ID Country" identity.country
  let d := dinsert d "ID Company" identity.company
  let d := dinsert d "ID Email" identity.email
  let d := dinsert d "ID Phone" identity.phone
  let d := dinsert d "ID SSN" identity.ssn
  let d := dinsert d "ID Username" identity.username
  let d := dinsert d "ID Passport Number" identity.passportNumber
  let d := dinsert d "ID License Number" identity.licenseNumber
  d

/-- Embeds the `for index, uri in enumerate(...)` loop of `format_login`,
carrying the enumeration index explicitly. -/
def addURLs : List Entry → Nat → List URIEntry → List Entry
  | d, _, [] => d
  | d, i, u :: rest => addURLs (dinsert d ("URL " ++ natStr (i + 1)) u.uri) (i + 1) rest

/-- Embeds `BWItem.format_login` (lines 60-72). -/
def BWItem.format_login (login : LoginData) : List Entry :=
  let d := dinsert [] "Username" login.username
  let d := dinsert d "Password" login.password
  let d := dinsert d "TOTP" login.totp
  let uris := login.uris.getD []
  if uris.length = 1 then dinsert d "URL" (uris.headD ⟨none⟩).uri
  else addURLs d 0 uris

/-- The label of the custom field at 0-based enumeration index `n - 1`
(the source labels it with `index+1`). -/
def customKey (n : Nat) (s : String) : String := "[Custom Field " ++ natStr n ++ "] " ++ s

/-- Embeds the custom-field loop of `BWItem.format` (lines 93-95). -/
def addCustomFields : List Entry → Nat → List CustomField → List Entry
  | d, _, [] => d
  | d, i, f :: rest => addCustomFields (dinsert d (customKey (i + 1) f.name) f.value) (i + 1) rest

/-- An attachment label: the 0-based enumeration index `n` followed by one of
the three suffixes `" File Name"`, `" File Size"`, `" URL"`. -/
def attachKey (n : Nat) (suffix : String) : String := "Attachment " ++ natStr n ++ suffix

/-- Embeds the attachment loop of `BWItem.format` (lines 98-101); note the
source uses the raw `index`, not `index+1`, in these labels. -/
def addAttachments : List Entry → Nat → List Attachment → List Entry
  | d, _, [] => d
  | d, i, a :: rest =>
    addAttachments
      (dinsert (dinsert (dinsert d (attachKey i " File Name") a.fileName)
        (attachKey i " File Size") a.sizeName) (attachKey i " URL") a.url) (i + 1) rest

/-- Embeds the dict-building part of `BWItem.format` (lines 74-103); `none`
embeds an exception (unknown type code, or a missing type-specific payload). -/
def BWItem.formatPairs (it : BWItem) : Option (List Entry) :=
  match it.item_type with
  | none => none
  | some label =>
    let d := dinsert [] "Name" (some it.name)
    let step :=
      if label = "login" then it.login.map (fun lg => dupdate d (BWItem.format_login lg))
      else if label = "note" then some d
      else if label = "card" then it.card.map (fun c => dupdate d (BWItem.format_card c))
      else if label = "identity" then it.identity.map (fun idn => dupdate d (BWItem.format_identity idn))
      else some d
    match step with
    | none => none
    | some d1 =>
      let d2 := addCustomFields d1 0 (it.fields.getD [])
      let d3 := addAttachments d2 0 (it.attachments.getD [])
      some (dinsert d3 "Notes" it.notes)

/-- The rendered line of one dict entry, `none` for a `None` value: embeds
the comprehension `["{}: {}".format(k, v) ... if not v is None]`. -/
def renderEntry (p : Entry) : Option String := p.2.map (fun v => p.1 ++ ": " ++ v)

/-- The list of body lines of `BWItem.format` (line 105). -/
def BWItem.formatLines (it : BWItem) : Option (List String) :=
  it.formatPairs.map (fun d => d.filterMap renderEntry)

/-- Embeds `BWItem.format` (lines 74-106): the joined lines plus the trailing
newline. -/
def BWItem.format (it : BWItem) : Option String :=
  it.formatLines.map (fun ls => String.intercalate "\n" ls ++ "\n")

/-- Derived closed form of the multi-URI block of `format_login`. -/
def urlPairsFrom : Nat → List URIEntry → List Entry
  | _, [] => []
  | i, u :: rest => ("URL " ++ natStr (i + 1), u.uri) :: urlPairsFrom (i + 1) rest

/-- Derived closed form of the URI block of `format_login`. -/
def urlPairs (us : List URIEntry) : List Entry :=
  if us.length = 1 then [("URL", (us.headD ⟨none⟩).uri)] else urlPairsFrom 0 us

/-- Derived closed form of `format_login`. -/
def loginPairs (lg : LoginData) : List Entry :=
  ("Username", lg.username) :: ("Password", lg.password) :: ("TOTP", lg.totp) ::
    urlPairs (lg.uris.getD [])

/-- Derived closed form of `format_card`. -/
def cardPairs (c : CardData) : List Entry :=
  [("Card Holder Name", c.cardholderName), ("Card Brand", c.brand), ("Card Number", c.number),
    ("Card Expire MM/YYYY", some (pyStr c.expMonth ++ "/" ++ pyStr c.expYear)),
    ("Card Security Code", c.code)]

/-- Derived closed form of `format_identity`. -/
def identityPairs (idn : IdentityData) : List Entry :=
  [("ID Title", idn.title), ("ID FirstName", idn.firstName), ("ID MiddleName", idn.middleName),
    ("ID LastName", idn.lastName), ("ID Address1", idn.address1), ("ID Address2", idn.address2),
    ("ID Address3", idn.address3), ("ID City", idn.city), ("ID State", idn.state),
    ("ID PostalCode", idn.postalCode), ("ID Country", idn.country), ("ID Company", idn.company),
    ("ID Email", idn.email), ("ID Phone", idn.phone), ("ID SSN", idn.ssn),
    ("ID Username", idn.username), ("ID Passport Number", idn.passportNumber),
    ("ID License Number", idn.licenseNumber)]

/-- Derived closed form of the custom-field block. -/
def customPairsFrom : Nat → List CustomField → List Entry
  | _, [] => []
  | i, f :: rest => (customKey (i + 1) f.name, f.value) :: customPairsFrom (i + 1) rest

/-- Derived closed form of the attachment block. -/
def attachPairsFrom : Nat → List Attachment → List Entry
  | _, [] => []
  | i, a :: rest =>
    (attachKey i " File Name", a.fileName) :: (attachKey i " File Size", a.sizeName) ::
      (attachKey i " URL", a.url) :: attachPairsFrom (i + 1) rest

/-- The type-specific block of an item's record, `none` when formatting
raises (unknown type code or missing payload). -/
def typePairsOf (it : BWItem) : Option (List Entry) :=
  match it.item_type with
  | none => none
  | some label =>
    if label = "login" then it.login.map loginPairs
    else if label = "note" then some []
    else if label = "card" then it.card.map cardPairs
    else if label = "identity" then it.identity.map identityPairs
    else some []

/-- The canonical-name transform as the specification words it: lower-case
the display name, replace each separator character by a space, collapse every
run of spaces to a single hyphen, then append the type label and the first
four characters of the identifier. -/
def passnameSpec (it : BWItem) : Option String :=
  it.item_type.map (fun label =>
    collapseSpaces (sepToSpace (lowerStr it.name)) ++ "-" ++ label ++ "-" ++ strTake it.id 4)

/-- The destination password store: one entry per backing file, keyed by the
entry name (the file name without its extension). -/
abbrev Store := List (String × String)

/-- Embeds `PassCli.pass_exists` (lines 147-148). -/
def pass_exists (s : Store) (n : String) : Bool := s.any (fun p => p.1 == n)

/-- Embeds `PassCli.remove_force` (lines 144-145): deletes the backing file
of entry `n`. -/
def remove_force (s : Store) (n : String) : Store := s.filter (fun p => !(p.1 == n))

/-- Embeds `PassCli.insert` (lines 140-142): creates the backing file of a
(non-existing) entry `n` with body `c`. -/
def pass_insert (s : Store) (n c : String) : Store := s ++ [(n, c)]

/-- Embeds `PassCli.list_pass_names` (lines 150-152). -/
def list_pass_names (s : Store) : List String := s.map Prod.fst

/-- One iteration of the main loop (lines 174-184): compute name and body,
delete a pre-existing entry of that name, insert the fresh body.  `none`
embeds an exception raised while computing the name or body. -/
def runItem (s : Store) (it : BWItem) : Option Store :=
  match it.passname, it.format with
  | some n, some c => some (pass_insert (if pass_exists s n then remove_force s n else s) n c)
  | _, _ => none

/-- The main loop over the whole source item list. -/
def runPipeline : Store → List BWItem → Option Store
  | s, [] => some s
  | s, it :: rest =>
    match runItem s it with
    | some s2 => runPipeline s2 rest
    | none => none

/-- Embeds `synced_pass_entries` (line 186). -/
def syncedNames (items : List BWItem) : Option (List String) :=
  items.mapM BWItem.passname

/-- Embeds `ignored_pass_entries` (line 187): the pre-run entry names not
re-written by the current run, in pre-run order (printed one per line). -/
def ignoredEntries (pre synced : List String) : List String :=
  pre.filter (fun e => !(synced.contains e))

/-- Content lookup in the destination store. -/
def lookupStore (s : Store) (n : String) : Option String :=
  (s.find? (fun p => p.1 == n)).map Prod.snd

/-- The body that the last source item with canonical name `n` writes,
`none` when no item has that canonical name. -/
def lastWrite : List BWItem → String → Option String
  | [], _ => none
  | it :: rest, n =>
    match lastWrite rest n with
    | some c => some c
    | none => if it.passname = some n then it.format else none

/-- Embeds `BWCli.unlock` (lines 118-123): `outputs k` is the text written
by the k-th invocation of `bw unlock --raw`; the fuel bounds how many
iterations of the unbounded `while True` loop are modelled. -/
def unlockLoop (outputs : Nat → String) : Nat → Nat → Option String
  | 0, _ => none
  | fuel + 1, i =>
    let session := outputs i
    if session.length > 0 then some session else unlockLoop outputs fuel (i + 1)

/-- The head-character shapes that the name label and the type-specific
labels can take. -/
def CoreShape (p : Entry) : Prop :=
  p.1 = "Name" ∨ p.1.data.head? = some 'U' ∨ p.1.data.head? = some 'P' ∨
    p.1.data.head? = some 'T' ∨ p.1.data.head? = some 'C' ∨ p.1.data.head? = some 'I'

/-- Example note item with one attachment and null notes. -/
def itemNote : BWItem :=
  ⟨"def67890-aaaa", "Wifi", 2, none, none, none, none,
    some [⟨some "scan.pdf", some "1 KB", some "https://files.example/scan.pdf"⟩], none⟩

/-- Example login item with a single URI. -/
def itemLogin1 : BWItem :=
  ⟨"abc12345-ffff", "My Bank", 1,
    some ⟨some "user", some "hunter2", none, some [⟨some "https://bank.example"⟩]⟩,
    none, none, none, none, some "hello"⟩

/-- Example login item with two URIs and two custom fields, the first of
which has a null value. -/
def itemLogin2 : BWItem :=
  ⟨"11112222-bbbb", "Shop_Site", 1,
    some ⟨some "u2", none, some "JBSWY3", some [⟨some "https://a.example"⟩, ⟨some "https://b.example"⟩]⟩,
    none, none,
    some [⟨"pin", none⟩, ⟨"security question", some "blue"⟩],
    none, some "two uris"⟩

/-- Example item with an unknown type code. -/
def itemBad : BWItem :=
  ⟨"99999999-cccc", "Mystery", 5, none, none, none, none, none, some "x"⟩

/-- Example login item whose payload has no `uris` key. -/
def itemLogin0 : BWItem :=
  ⟨"77770000-dddd", "NoUris", 1, some ⟨some "u0", some "p0", none, none⟩,
    none, none, none, none, none⟩

/-- A variant of `itemLogin1` that agrees with it on identifier, display name
and type code but differs in every other field. -/
def itemLogin1b : BWItem :=
  ⟨"abc12345-ffff", "My Bank", 1, some ⟨some "other", none, some "TOTPSEED", none⟩,
    none, none, none, none, none⟩

/-! ## String and character toolkit -/

theorem strEq_of_data {s t : String} (h : s.data = t.data) : s = t := by
  cases s
  cases t
  exact congrArg String.mk h

theorem strNe_of_data {s t : String} (h : s.data ≠ t.data) : s ≠ t :=
  fun e => h (congrArg String.data e)

theorem ne_of_head {s t : String} (h : s.data.head? ≠ t.data.head?) : s ≠ t :=
  fun e => h (congrArg (fun u => u.data.head?) e)

theorem digitChar_isDigit {n : Nat} (h : n < 10) : (digitChar n).isDigit = true := by
  interval_cases n <;> decide

theorem digitChar_inj {m n : Nat} (hm : m < 10) (hn : n < 10)
    (h : digitChar m = digitChar n) : m = n := by
  interval_cases m <;> interval_cases n <;> first | rfl | exact absurd h (by decide)

theorem natCharsAux_stable : ∀ (f g n : Nat), n ≤ f → n ≤ g → natCharsAux f n = natCharsAux g n := by
  intro f
  induction f with
  | zero =>
    intro g n hf _
    interval_cases n
    cases g with
    | zero => rfl
    | succ g => simp [natCharsAux]
  | succ f ih =>
    intro g n hf hg
    cases g with
    | zero =>
      interval_cases n
      simp [natCharsAux]
    | succ g =>
      simp only [natCharsAux]
      by_cases h10 : n < 10
      · simp [h10]
      · have hdiv : n / 10 < n := Nat.div_lt_self (by omega) (by omega)
        simp only [h10, if_false]
        rw [ih g (n / 10) (by omega) (by omega)]

theorem natChars_unfold (n : Nat) :
    natChars n = if n < 10 then [digitChar n] else natChars (n / 10) ++ [digitChar (n % 10)] := by
  by_cases h10 : n < 10
  · cases n with
    | zero => simp [natChars, natCharsAux, h10]
    | succ m => simp [natChars, natCharsAux, h10]
  · have hdiv : n / 10 < n := Nat.div_lt_self (by omega) (by omega)
    cases n with
    | zero => omega
    | succ m =>
      simp only [natChars, natCharsAux, h10, if_false, if_neg]
      rw [natCharsAux_stable m ((m + 1) / 10) ((m + 1) / 10) (by omega) (by omega)]

theorem natChars_ne_nil (n : Nat) : natChars n ≠ [] := by
  rw [natChars_unfold]
  by_cases h10 : n < 10 <;> simp [h10]

theorem natChars_isDigit (n : Nat) : ∀ c ∈ natChars n, c.isDigit = true := by
  induction n using Nat.strong_induction_on with
  | _ n ih =>
    intro c hc
    rw [natChars_unfold] at hc
    by_cases h10 : n < 10
    · simp [h10] at hc
      exact hc ▸ digitChar_isDigit h10
    · simp only [h10, if_false, List.mem_append, List.mem_singleton] at hc
      rcases hc with hc | hc
      · exact ih (n / 10) (Nat.div_lt_self (by omega) (by omega)) c hc
      · exact hc ▸ digitChar_isDigit (Nat.mod_lt n (by omega))

theorem natChars_inj : ∀ {m n : Nat}, natChars m = natChars n → m = n := by
  intro m
  induction m using Nat.strong_induction_on with
  | _ m ih =>
    intro n h
    rw [natChars_unfold, natChars_unfold n] at h
    by_cases hm : m < 10 <;> by_cases hn : n < 10
    · simp only [hm, hn, if_true] at h
      exact digitChar_inj hm hn (by simpa using h)
    · simp only [hm, hn, if_true, if_false] at h
      have : natChars (n / 10) ≠ [] := natChars_ne_nil _
      cases heq : natChars (n / 10) with
      | nil => exact absurd heq this
      | cons a l => rw [heq] at h; simp at h
    · simp only [hm, hn, if_true, if_false] at h
      have : natChars (m / 10) ≠ [] := natChars_ne_nil _
      cases heq : natChars (m / 10) with
      | nil => exact absurd heq this
      | cons a l => rw [heq] at h; simp at h
    · simp only [hm, hn, if_false] at h
      have h2 := List.append_inj' h (by simp)
      have hdivs : m / 10 = n / 10 :=
        ih (m / 10) (Nat.div_lt_self (by omega) (by omega)) (by simpa using h2.1)
      have hmods : m % 10 = n % 10 := by
        have := h2.2
        simp only [List.cons.injEq] at this
        exact digitChar_inj (Nat.mod_lt m (by omega)) (Nat.mod_lt n (by omega)) this.1
      omega

theorem natStr_inj {m n : Nat} (h : natStr m = natStr n) : m = n :=
  natChars_inj (congrArg String.data h)

theorem natChars_ne_of_isDigit_ne {c : Char} (hc : c.isDigit = false) (n : Nat) :
    ∀ a ∈ natChars n, a ≠ c := by
  intro a ha he
  rw [he] at ha
  exact absurd (natChars_isDigit n c ha) (by simp [hc])

/-- Splitting an equation of char lists at a separator character that occurs
in neither left part. -/
theorem sep_append_inj {c : Char} :
    ∀ {A B x y : List Char}, (∀ a ∈ A, a ≠ c) → (∀ b ∈ B, b ≠ c) →
      A ++ c :: x = B ++ c :: y → A = B ∧ x = y := by
  intro A
  induction A with
  | nil =>
    intro B x y _ hB h
    cases B with
    | nil => simpa using h
    | cons b B =>
      simp only [List.nil_append, List.cons_append, List.cons.injEq] at h
      exact absurd h.1.symm (hB b (by simp))
  | cons a A ih =>
    intro B x y hA hB h
    cases B with
    | nil =>
      simp only [List.nil_append, List.cons_append, List.cons.injEq] at h
      exact absurd h.1 (hA a (by simp))
    | cons b B =>
      simp only [List.cons_append, List.cons.injEq] at h
      have := ih (fun u hu => hA u (by simp [hu])) (fun u hu => hB u (by simp [hu])) h.2
      exact ⟨by simp [h.1, this.1], this.2⟩

/-! ## Generated-label disjointness -/

theorem ne_of_head_vals {s t : String} {a b : Char} (hs : s.data.head? = some a)
    (ht : t.data.head? = some b) (hab : a ≠ b) : s ≠ t := by
  intro e
  rw [e] at hs
  exact hab (Option.some.inj (hs.symm.trans ht))

theorem customKey_data (n : Nat) (s : String) :
    (customKey n s).data = "[Custom Field ".data ++ (natChars n ++ ']' :: ' ' :: s.data) := by
  simp only [customKey, natStr, String.data_append, List.append_assoc]
  rfl

theorem attachKey_data (n : Nat) (s : String) :
    (attachKey n s).data = "Attachment ".data ++ (natChars n ++ s.data) := by
  simp only [attachKey, natStr, String.data_append, List.append_assoc]

theorem customKey_inj {m n : Nat} {s t : String} (h : customKey m s = customKey n t) :
    m = n ∧ s = t := by
  have hd := congrArg String.data h
  rw [customKey_data, customKey_data] at hd
  have hsep := sep_append_inj (natChars_ne_of_isDigit_ne (by decide) m)
    (natChars_ne_of_isDigit_ne (by decide) n) (List.append_cancel_left hd)
  refine ⟨natChars_inj hsep.1, ?_⟩
  have h2 := hsep.2
  simp only [List.cons.injEq, true_and] at h2
  exact strEq_of_data h2

theorem customKey_ne_of_index {m n : Nat} {s t : String} (h : m ≠ n) :
    customKey m s ≠ customKey n t :=
  fun e => h (customKey_inj e).1

theorem attachKey_inj {m n : Nat} {s t : String} (hs : s.data.head? = some ' ')
    (ht : t.data.head? = some ' ') (h : attachKey m s = attachKey n t) : m = n ∧ s = t := by
  have hd := congrArg String.data h
  rw [attachKey_data, attachKey_data] at hd
  obtain ⟨s2, hs2⟩ : ∃ s2, s.data = ' ' :: s2 := by
    cases hse : s.data with
    | nil => rw [hse] at hs; simp at hs
    | cons a l => rw [hse] at hs; simp at hs; exact ⟨l, by rw [hs]⟩
  obtain ⟨t2, ht2⟩ : ∃ t2, t.data = ' ' :: t2 := by
    cases hte : t.data with
    | nil => rw [hte] at ht; simp at ht
    | cons a l => rw [hte] at ht; simp at ht; exact ⟨l, by rw [ht]⟩
  rw [hs2, ht2] at hd
  have hsep := sep_append_inj (natChars_ne_of_isDigit_ne (by decide) m)
    (natChars_ne_of_isDigit_ne (by decide) n) (List.append_cancel_left hd)
  refine ⟨natChars_inj hsep.1, strEq_of_data ?_⟩
  rw [hs2, ht2, hsep.2]

theorem urlN_ne {m n : Nat} (h : m ≠ n) : ("URL " ++ natStr m) ≠ ("URL " ++ natStr n) := by
  intro e
  have hd := congrArg String.data e
  rw [String.data_append, String.data_append] at hd
  exact h (natChars_inj (List.append_cancel_left hd))

theorem username_ne_urlN (n : Nat) : ("Username" : String) ≠ "URL " ++ natStr n := by
  intro h
  have hd : ("Username" : String).data.tail.head? = ("URL " ++ natStr n).data.tail.head? := by
    rw [h]
  rw [show ("URL " ++ natStr n).data.tail.head? = some 'R' from rfl] at hd
  exact absurd hd (by decide)

theorem url_ne_urlN (n : Nat) : ("URL" : String) ≠ "URL " ++ natStr n := by
  intro h
  have hd : (("URL" : String).data.drop 3).head? = ((("URL " ++ natStr n) : String).data.drop 3).head? := by
    rw [h]
  rw [show ((("URL " ++ natStr n) : String).data.drop 3).head? = some ' ' from rfl] at hd
  exact absurd hd (by decide)

/-! ## Dict lemmas -/

theorem dinsert_fresh {d : List Entry} {k : String} (v : Option String)
    (h : ∀ p ∈ d, p.1 ≠ k) : dinsert d k v = d ++ [(k, v)] := by
  have ha : d.any (fun p => p.1 == k) = false := by
    rw [List.any_eq_false]
    intro p hp
    simp [h p hp]
  simp [dinsert, ha]

theorem dupdate_eq_append : ∀ (sub d : List Entry),
    (∀ p ∈ sub, ∀ q ∈ d, q.1 ≠ p.1) → List.Pairwise (fun p q : Entry => p.1 ≠ q.1) sub →
    dupdate d sub = d ++ sub := by
  intro sub
  induction sub with
  | nil => intro d _ _; simp [dupdate]
  | cons p sub ih =>
    intro d h hp
    rw [List.pairwise_cons] at hp
    have step : dupdate d (p :: sub) = dupdate (dinsert d p.1 p.2) sub := rfl
    rw [step, dinsert_fresh p.2 (fun q hq => h p (by simp) q hq)]
    rw [ih (d ++ [(p.1, p.2)]) ?_ hp.2]
    · simp
    · intro r hr q hq
      rcases List.mem_append.mp hq with hq | hq
      · exact h r (by simp [hr]) q hq
      · simp only [List.mem_singleton] at hq
        rw [hq]
        exact hp.1 r hr

theorem attachKey_ne {m n : Nat} {s t : String} (hs : s.data.head? = some ' ')
    (ht : t.data.head? = some ' ') (h : m ≠ n ∨ s ≠ t) : attachKey m s ≠ attachKey n t := by
  intro e
  obtain ⟨h1, h2⟩ := attachKey_inj hs ht e
  rcases h with h | h
  · exact h h1
  · exact h h2

/-! ## Closed forms of the formatting blocks -/

theorem mem_urlPairsFrom : ∀ {us : List URIEntry} {i : Nat} {p : Entry},
    p ∈ urlPairsFrom i us → ∃ n, i ≤ n ∧ p.1 = "URL " ++ natStr (n + 1) := by
  intro us
  induction us with
  | nil => intro i p hp; simp [urlPairsFrom] at hp
  | cons u us ih =>
    intro i p hp
    rcases List.mem_cons.mp hp with hp | hp
    · exact ⟨i, le_refl i, by rw [hp]⟩
    · obtain ⟨n, hn, he⟩ := ih hp
      exact ⟨n, by omega, he⟩

theorem urlPairsFrom_pairwise : ∀ (us : List URIEntry) (i : Nat),
    List.Pairwise (fun p q : Entry => p.1 ≠ q.1) (urlPairsFrom i us) := by
  intro us
  induction us with
  | nil => intro i; simp [urlPairsFrom]
  | cons u us ih =>
    intro i
    refine List.Pairwise.cons ?_ (ih (i + 1))
    intro q hq
    obtain ⟨n, hn, he⟩ := mem_urlPairsFrom hq
    rw [he]
    exact urlN_ne (by omega)

theorem mem_urlPairs {us : List URIEntry} {p : Entry} (hp : p ∈ urlPairs us) :
    p.1 = "URL" ∨ ∃ n, p.1 = "URL " ++ natStr (n + 1) := by
  unfold urlPairs at hp
  split at hp
  · simp only [List.mem_singleton] at hp
    left
    rw [hp]
  · obtain ⟨n, _, he⟩ := mem_urlPairsFrom hp
    exact Or.inr ⟨n, he⟩

theorem urlPairs_pairwise (us : List URIEntry) :
    List.Pairwise (fun p q : Entry => p.1 ≠ q.1) (urlPairs us) := by
  unfold urlPairs
  split
  · simp
  · exact urlPairsFrom_pairwise us 0

theorem format_card_eq (c : CardData) : BWItem.format_card c = cardPairs c := rfl

set_option maxHeartbeats 1600000 in
theorem format_identity_eq (idn : IdentityData) :
    BWItem.format_identity idn = identityPairs idn := by
  simp [BWItem.format_identity, dinsert, identityPairs]

theorem addURLs_eq : ∀ (us : List URIEntry) (d : List Entry) (i : Nat),
    (∀ p ∈ d, ∀ j, i ≤ j → p.1 ≠ "URL " ++ natStr (j + 1)) →
    addURLs d i us = d ++ urlPairsFrom i us := by
  intro us
  induction us with
  | nil => intro d i _; simp [addURLs, urlPairsFrom]
  | cons u us ih =>
    intro d i h
    simp only [addURLs, urlPairsFrom]
    rw [dinsert_fresh u.uri (fun p hp => h p hp i (le_refl i))]
    rw [ih (d ++ [("URL " ++ natStr (i + 1), u.uri)]) (i + 1) ?_]
    · simp
    · intro p hp j hj
      rcases List.mem_append.mp hp with hp | hp
      · exact h p hp j (by omega)
      · simp only [List.mem_singleton] at hp
        rw [hp]
        exact urlN_ne (fun e => by omega)

theorem format_login_eq (lg : LoginData) : BWItem.format_login lg = loginPairs lg := by
  by_cases h1 : (lg.uris.getD []).length = 1
  · simp only [BWItem.format_login, loginPairs, urlPairs, h1, if_true]
    rfl
  · simp only [BWItem.format_login, loginPairs, urlPairs, h1, if_false]
    rw [addURLs_eq (lg.uris.getD []) _ 0 ?_]
    · rfl
    · intro p hp j _
      rcases List.mem_cons.mp hp with hp | hp
      · rw [hp]
        exact username_ne_urlN (j + 1)
      · rcases List.mem_cons.mp hp with hp | hp
        · rw [hp]
          exact ne_of_head_vals (show ("Password" : String).data.head? = some 'P' from rfl)
            (show ("URL " ++ natStr (j + 1)).data.head? = some 'U' from rfl) (by decide)
        · rcases List.mem_cons.mp hp with hp | hp
          · rw [hp]
            exact ne_of_head_vals (show ("TOTP" : String).data.head? = some 'T' from rfl)
              (show ("URL " ++ natStr (j + 1)).data.head? = some 'U' from rfl) (by decide)
          · simp at hp

theorem mem_loginPairs_head {lg : LoginData} {p : Entry} (hp : p ∈ loginPairs lg) :
    p.1.data.head? = some 'U' ∨ p.1.data.head? = some 'P' ∨ p.1.data.head? = some 'T' := by
  rcases List.mem_cons.mp hp with h | hp
  · left; rw [h]; rfl
  · rcases List.mem_cons.mp hp with h | hp
    · right; left; rw [h]; rfl
    · rcases List.mem_cons.mp hp with h | hp
      · right; right; rw [h]; rfl
      · rcases mem_urlPairs hp with he | ⟨n, he⟩
        · left; rw [he]; rfl
        · left; rw [he]; rfl

theorem mem_cardPairs_head {c : CardData} {p : Entry} (hp : p ∈ cardPairs c) :
    p.1.data.head? = some 'C' := by
  fin_cases hp <;> rfl

theorem mem_identityPairs_head {idn : IdentityData} {p : Entry} (hp : p ∈ identityPairs idn) :
    p.1.data.head? = some 'I' := by
  fin_cases hp <;> rfl

theorem mem_customPairsFrom_head : ∀ {fs : List CustomField} {i : Nat} {p : Entry},
    p ∈ customPairsFrom i fs → p.1.data.head? = some '[' := by
  intro fs
  induction fs with
  | nil => intro i p hp; simp [customPairsFrom] at hp
  | cons f fs ih =>
    intro i p hp
    rcases List.mem_cons.mp hp with hp | hp
    · rw [hp]; rfl
    · exact ih hp

theorem mem_attachPairsFrom_head : ∀ {ats : List Attachment} {i : Nat} {p : Entry},
    p ∈ attachPairsFrom i ats → p.1.data.head? = some 'A' := by
  intro ats
  induction ats with
  | nil => intro i p hp; simp [attachPairsFrom] at hp
  | cons a ats ih =>
    intro i p hp
    rcases List.mem_cons.mp hp with hp | hp
    · rw [hp]; rfl
    · rcases List.mem_cons.mp hp with hp | hp
      · rw [hp]; rfl
      · rcases List.mem_cons.mp hp with hp | hp
        · rw [hp]; rfl
        · exact ih hp

theorem addCustomFields_eq : ∀ (fs : List CustomField) (d : List Entry) (i : Nat),
    (∀ p ∈ d, ∀ j (s : String), i ≤ j → p.1 ≠ customKey (j + 1) s) →
    addCustomFields d i fs = d ++ customPairsFrom i fs := by
  intro fs
  induction fs with
  | nil => intro d i _; simp [addCustomFields, customPairsFrom]
  | cons f fs ih =>
    intro d i h
    simp only [addCustomFields, customPairsFrom]
    rw [dinsert_fresh f.value (fun p hp => h p hp i f.name (le_refl i))]
    rw [ih (d ++ [(customKey (i + 1) f.name, f.value)]) (i + 1) ?_]
    · simp
    · intro p hp j s hj
      rcases List.mem_append.mp hp with hp | hp
      · exact h p hp j s (by omega)
      · simp only [List.mem_singleton] at hp
        rw [hp]
        exact customKey_ne_of_index (by omega)

theorem addAttachments_eq : ∀ (ats : List Attachment) (d : List Entry) (i : Nat),
    (∀ p ∈ d, ∀ j, i ≤ j → ∀ s : String,
      s = " File Name" ∨ s = " File Size" ∨ s = " URL" → p.1 ≠ attachKey j s) →
    addAttachments d i ats = d ++ attachPairsFrom i ats := by
  intro ats
  induction ats with
  | nil => intro d i _; simp [addAttachments, attachPairsFrom]
  | cons a ats ih =>
    intro d i h
    simp only [addAttachments, attachPairsFrom]
    rw [dinsert_fresh a.fileName (fun p hp => h p hp i (le_refl i) " File Name" (by simp))]
    rw [dinsert_fresh a.sizeName ?fs2]
    case fs2 =>
      intro p hp
      rcases List.mem_append.mp hp with hp | hp
      · exact h p hp i (le_refl i) " File Size" (by simp)
      · simp only [List.mem_singleton] at hp
        rw [hp]
        exact attachKey_ne rfl rfl (Or.inr (by decide))
    rw [dinsert_fresh a.url ?fs3]
    case fs3 =>
      intro p hp
      rcases List.mem_append.mp hp with hp | hp
      · rcases List.mem_append.mp hp with hp | hp
        · exact h p hp i (le_refl i) " URL" (by simp)
        · simp only [List.mem_singleton] at hp
          rw [hp]
          exact attachKey_ne rfl rfl (Or.inr (by decide))
      · simp only [List.mem_singleton] at hp
        rw [hp]
        exact attachKey_ne rfl rfl (Or.inr (by decide))
    rw [ih _ (i + 1) ?fs4]
    case fs4 =>
      intro p hp j hj s hsuf
      rcases List.mem_append.mp hp with hp | hp
      · rcases List.mem_append.mp hp with hp | hp
        · rcases List.mem_append.mp hp with hp | hp
          · exact h p hp j (by omega) s hsuf
          · simp only [List.mem_singleton] at hp
            rw [hp]
            rcases hsuf with rfl | rfl | rfl <;> exact attachKey_ne rfl rfl (Or.inl (by omega))
        · simp only [List.mem_singleton] at hp
          rw [hp]
          rcases hsuf with rfl | rfl | rfl <;> exact attachKey_ne rfl rfl (Or.inl (by omega))
      · simp only [List.mem_singleton] at hp
        rw [hp]
        rcases hsuf with rfl | rfl | rfl <;> exact attachKey_ne rfl rfl (Or.inl (by omega))
    simp

theorem loginPairs_pairwise (lg : LoginData) :
    List.Pairwise (fun p q : Entry => p.1 ≠ q.1) (loginPairs lg) := by
  refine List.Pairwise.cons ?_ (List.Pairwise.cons ?_ (List.Pairwise.cons ?_ (urlPairs_pairwise _)))
  · intro q hq
    rcases List.mem_cons.mp hq with h | hq
    · rw [h]; exact (by decide : ("Username" : String) ≠ "Password")
    · rcases List.mem_cons.mp hq with h | hq
      · rw [h]; exact (by decide : ("Username" : String) ≠ "TOTP")
      · rcases mem_urlPairs hq with he | ⟨n, he⟩
        · rw [he]; exact (by decide : ("Username" : String) ≠ "URL")
        · rw [he]
          exact username_ne_urlN (n + 1)
  · intro q hq
    rcases List.mem_cons.mp hq with h | hq
    · rw [h]; exact (by decide : ("Password" : String) ≠ "TOTP")
    · rcases mem_urlPairs hq with he | ⟨n, he⟩
      · rw [he]; exact (by decide : ("Password" : String) ≠ "URL")
      · rw [he]
        exact ne_of_head_vals (show ("Password" : String).data.head? = some 'P' from rfl)
          (show ("URL " ++ natStr (n + 1)).data.head? = some 'U' from rfl) (by decide)
  · intro q hq
    rcases mem_urlPairs hq with he | ⟨n, he⟩
    · rw [he]; exact (by decide : ("TOTP" : String) ≠ "URL")
    · rw [he]
      exact ne_of_head_vals (show ("TOTP" : String).data.head? = some 'T' from rfl)
        (show ("URL " ++ natStr (n + 1)).data.head? = some 'U' from rfl) (by decide)

theorem cardPairs_pairwise (c : CardData) :
    List.Pairwise (fun p q : Entry => p.1 ≠ q.1) (cardPairs c) := by
  simp [cardPairs, List.pairwise_cons]

set_option maxHeartbeats 800000 in
theorem identityPairs_pairwise (idn : IdentityData) :
    List.Pairwise (fun p q : Entry => p.1 ≠ q.1) (identityPairs idn) := by
  simp [identityPairs, List.pairwise_cons]

theorem item_type_cases (it : BWItem) :
    (it.type = 1 ∧ it.item_type = some "login") ∨ (it.type = 2 ∧ it.item_type = some "note") ∨
    (it.type = 3 ∧ it.item_type = some "card") ∨ (it.type = 4 ∧ it.item_type = some "identity") ∨
    (it.type ≠ 1 ∧ it.type ≠ 2 ∧ it.type ≠ 3 ∧ it.type ≠ 4 ∧ it.item_type = none) := by
  unfold BWItem.item_type
  split_ifs with h1 h2 h3 h4 <;> simp_all

theorem coreShape_ne {p : Entry} {t : String} {b : Char} (hph : CoreShape p)
    (ht : t.data.head? = some b) (hname : ("Name" : String) ≠ t)
    (hb : b ≠ 'U' ∧ b ≠ 'P' ∧ b ≠ 'T' ∧ b ≠ 'C' ∧ b ≠ 'I') : p.1 ≠ t := by
  rcases hph with h | h | h | h | h | h
  · rw [h]; exact hname
  · exact ne_of_head_vals h ht (Ne.symm hb.1)
  · exact ne_of_head_vals h ht (Ne.symm hb.2.1)
  · exact ne_of_head_vals h ht (Ne.symm hb.2.2.1)
  · exact ne_of_head_vals h ht (Ne.symm hb.2.2.2.1)
  · exact ne_of_head_vals h ht (Ne.symm hb.2.2.2.2)

theorem customKey_head (n : Nat) (s : String) :
    (customKey n s).data.head? = some '[' := rfl

theorem attachKey_head (n : Nat) (s : String) :
    (attachKey n s).data.head? = some 'A' := rfl

theorem name_ne_customKey (n : Nat) (s : String) : ("Name" : String) ≠ customKey n s :=
  ne_of_head_vals (show ("Name" : String).data.head? = some 'N' from rfl)
    (customKey_head n s) (by decide)

theorem name_ne_attachKey (n : Nat) (s : String) : ("Name" : String) ≠ attachKey n s :=
  ne_of_head_vals (show ("Name" : String).data.head? = some 'N' from rfl)
    (attachKey_head n s) (by decide)

/-- The custom-field, attachment and notes steps of `format`, applied to a
record whose keys so far are the name label and type-specific labels. -/
theorem tail_steps (d1 : List Entry) (fs : List CustomField) (ats : List Attachment)
    (notes : Option String) (hhead : ∀ p ∈ d1, CoreShape p) :
    dinsert (addAttachments (addCustomFields d1 0 fs) 0 ats) "Notes" notes
      = d1 ++ customPairsFrom 0 fs ++ attachPairsFrom 0 ats ++ [("Notes", notes)] := by
  rw [addCustomFields_eq fs d1 0 ?hcf]
  case hcf =>
    intro p hp j s _
    exact coreShape_ne (hhead p hp) (customKey_head (j + 1) s)
      (name_ne_customKey (j + 1) s) (by decide)
  rw [addAttachments_eq ats _ 0 ?hat]
  case hat =>
    intro p hp j _ s hsuf
    rcases List.mem_append.mp hp with hp | hp
    · exact coreShape_ne (hhead p hp) (attachKey_head j s) (name_ne_attachKey j s) (by decide)
    · exact ne_of_head_vals (mem_customPairsFrom_head hp) (attachKey_head j s) (by decide)
  rw [dinsert_fresh notes ?hns]
  case hns =>
    intro p hp
    rcases List.mem_append.mp hp with hp | hp
    · rcases List.mem_append.mp hp with hp | hp
      · exact coreShape_ne (hhead p hp)
          (show ("Notes" : String).data.head? = some 'N' from rfl) (by decide) (by decide)
      · exact ne_of_head_vals (mem_customPairsFrom_head hp)
          (show ("Notes" : String).data.head? = some 'N' from rfl) (by decide)
    · exact ne_of_head_vals (mem_attachPairsFrom_head hp)
        (show ("Notes" : String).data.head? = some 'N' from rfl) (by decide)

theorem formatPairs_login {it : BWItem} {lg : LoginData}
    (hl : it.item_type = some "login") (hlg : it.login = some lg) :
    it.formatPairs = some ((("Name", some it.name) :: loginPairs lg) ++
      customPairsFrom 0 (it.fields.getD []) ++ attachPairsFrom 0 (it.attachments.getD []) ++
      [("Notes", it.notes)]) := by
  have h1 : it.formatPairs = some (dinsert (addAttachments (addCustomFields
      (dupdate [("Name", some it.name)] (BWItem.format_login lg)) 0 (it.fields.getD []))
      0 (it.attachments.getD [])) "Notes" it.notes) := by
    simp [BWItem.formatPairs, hl, hlg]
    rfl
  rw [h1, format_login_eq]
  rw [dupdate_eq_append (loginPairs lg) [("Name", some it.name)] ?hfr (loginPairs_pairwise lg)]
  case hfr =>
    intro p hp q hq
    simp only [List.mem_singleton] at hq
    rw [hq]
    rcases mem_loginPairs_head hp with h | h | h <;>
      exact ne_of_head_vals (show ("Name" : String).data.head? = some 'N' from rfl) h (by decide)
  rw [tail_steps _ _ _ _ ?hh]
  case hh =>
    intro p hp
    rcases List.mem_append.mp hp with hp | hp
    · simp only [List.mem_singleton] at hp
      exact Or.inl (by rw [hp])
    · rcases mem_loginPairs_head hp with h | h | h
      · exact Or.inr (Or.inl h)
      · exact Or.inr (Or.inr (Or.inl h))
      · exact Or.inr (Or.inr (Or.inr (Or.inl h)))
  rfl

theorem formatPairs_note {it : BWItem} (hl : it.item_type = some "note") :
    it.formatPairs = some ((("Name", some it.name) :: ([] : List Entry)) ++
      customPairsFrom 0 (it.fields.getD []) ++ attachPairsFrom 0 (it.attachments.getD []) ++
      [("Notes", it.notes)]) := by
  have h1 : it.formatPairs = some (dinsert (addAttachments (addCustomFields
      [("Name", some it.name)] 0 (it.fields.getD [])) 0 (it.attachments.getD []))
      "Notes" it.notes) := by
    simp [BWItem.formatPairs, hl]
    rfl
  rw [h1, tail_steps _ _ _ _ ?hh]
  case hh =>
    intro p hp
    simp only [List.mem_singleton] at hp
    exact Or.inl (by rw [hp])

theorem formatPairs_card {it : BWItem} {c : CardData}
    (hl : it.item_type = some "card") (hc : it.card = some c) :
    it.formatPairs = some ((("Name", some it.name) :: cardPairs c) ++
      customPairsFrom 0 (it.fields.getD []) ++ attachPairsFrom 0 (it.attachments.getD []) ++
      [("Notes", it.notes)]) := by
  have h1 : it.formatPairs = some (dinsert (addAttachments (addCustomFields
      (dupdate [("Name", some it.name)] (BWItem.format_card c)) 0 (it.fields.getD []))
      0 (it.attachments.getD [])) "Notes" it.notes) := by
    simp [BWItem.formatPairs, hl, hc]
    rfl
  rw [h1, format_card_eq]
  rw [dupdate_eq_append (cardPairs c) [("Name", some it.name)] ?hfr (cardPairs_pairwise c)]
  case hfr =>
    intro p hp q hq
    simp only [List.mem_singleton] at hq
    rw [hq]
    exact ne_of_head_vals (show ("Name" : String).data.head? = some 'N' from rfl)
      (mem_cardPairs_head hp) (by decide)
  rw [tail_steps _ _ _ _ ?hh]
  case hh =>
    intro p hp
    rcases List.mem_append.mp hp with hp | hp
    · simp only [List.mem_singleton] at hp
      exact Or.inl (by rw [hp])
    · exact Or.inr (Or.inr (Or.inr (Or.inr (Or.inl (mem_cardPairs_head hp)))))
  rfl

theorem formatPairs_identity {it : BWItem} {idn : IdentityData}
    (hl : it.item_type = some "identity") (hi : it.identity = some idn) :
    it.formatPairs = some ((("Name", some it.name) :: identityPairs idn) ++
      customPairsFrom 0 (it.fields.getD []) ++ attachPairsFrom 0 (it.attachments.getD []) ++
      [("Notes", it.notes)]) := by
  have h1 : it.formatPairs = some (dinsert (addAttachments (addCustomFields
      (dupdate [("Name", some it.name)] (BWItem.format_identity idn)) 0 (it.fields.getD []))
      0 (it.attachments.getD [])) "Notes" it.notes) := by
    simp [BWItem.formatPairs, hl, hi]
    rfl
  rw [h1, format_identity_eq]
  rw [dupdate_eq_append (identityPairs idn) [("Name", some it.name)] ?hfr
    (identityPairs_pairwise idn)]
  case hfr =>
    intro p hp q hq
    simp only [List.mem_singleton] at hq
    rw [hq]
    exact ne_of_head_vals (show ("Name" : String).data.head? = some 'N' from rfl)
      (mem_identityPairs_head hp) (by decide)
  rw [tail_steps _ _ _ _ ?hh]
  case hh =>
    intro p hp
    rcases List.mem_append.mp hp with hp | hp
    · simp only [List.mem_singleton] at hp
      exact Or.inl (by rw [hp])
    · exact Or.inr (Or.inr (Or.inr (Or.inr (Or.inr (mem_identityPairs_head hp)))))
  rfl

/-- Master structural characterization of the dict built by `format`: the
name pair, then the type-specific block, then custom fields, attachments and
the notes pair, with no overwriting between blocks. -/
theorem formatPairs_eq (it : BWItem) :
    it.formatPairs = (typePairsOf it).map (fun tp =>
      (("Name", some it.name) :: tp) ++ customPairsFrom 0 (it.fields.getD []) ++
        attachPairsFrom 0 (it.attachments.getD []) ++ [("Notes", it.notes)]) := by
  rcases item_type_cases it with ⟨_, hl⟩ | ⟨_, hl⟩ | ⟨_, hl⟩ | ⟨_, hl⟩ | ⟨_, _, _, _, hl⟩
  · cases hlg : it.login with
    | none => simp [BWItem.formatPairs, typePairsOf, hl, hlg]
    | some lg =>
      rw [formatPairs_login hl hlg]
      simp [typePairsOf, hl, hlg]
  · rw [formatPairs_note hl]
    simp [typePairsOf, hl]
  · cases hc : it.card with
    | none => simp [BWItem.formatPairs, typePairsOf, hl, hc]
    | some c =>
      rw [formatPairs_card hl hc]
      simp [typePairsOf, hl, hc]
  · cases hi : it.identity with
    | none => simp [BWItem.formatPairs, typePairsOf, hl, hi]
    | some idn =>
      rw [formatPairs_identity hl hi]
      simp [typePairsOf, hl, hi]
  · simp [BWItem.formatPairs, typePairsOf, hl]

/-! ## Name-transform lemmas -/

theorem lowerChar_sep_iff (c d : Char) (hd : d = '-' ∨ d = '_' ∨ d = '|' ∨ d = ' ') :
    lowerChar c = d ↔ c = d := by
  unfold lowerChar
  split
  all_goals try (rcases hd with rfl | rfl | rfl | rfl <;> decide)
  exact Iff.rfl

theorem sepRepl_lowerChar (c : Char) : sepRepl (lowerChar c) = lowerChar (sepRepl c) := by
  by_cases h : c = '-' ∨ c = '_' ∨ c = '|'
  · rcases h with rfl | rfl | rfl <;> decide
  · have h1 : ¬(lowerChar c = '-' ∨ lowerChar c = '_' ∨ lowerChar c = '|') := by
      intro hh
      rcases hh with hh | hh | hh
      · exact h (Or.inl ((lowerChar_sep_iff c '-' (by simp)).mp hh))
      · exact h (Or.inr (Or.inl ((lowerChar_sep_iff c '_' (by simp)).mp hh)))
      · exact h (Or.inr (Or.inr ((lowerChar_sep_iff c '|' (by simp)).mp hh)))
    simp [sepRepl, h, h1]

theorem collapseAux_map_lower : ∀ (b : Bool) (l : List Char),
    collapseAux b (l.map lowerChar) = (collapseAux b l).map lowerChar := by
  intro b l
  induction l generalizing b with
  | nil => simp [collapseAux]
  | cons c rest ih =>
    by_cases hc : c = ' '
    · subst hc
      by_cases hb : b <;>
        simp [collapseAux, ih, hb, show lowerChar ' ' = ' ' from rfl,
          show lowerChar '-' = '-' from rfl]
    · have hlc : lowerChar c ≠ ' ' := fun e => hc ((lowerChar_sep_iff c ' ' (by simp)).mp e)
      simp [collapseAux, hc, hlc, ih]

theorem lower_collapse_comm (s : String) :
    lowerStr (collapseSpaces (sepToSpace s)) = collapseSpaces (sepToSpace (lowerStr s)) := by
  apply strEq_of_data
  show (collapseAux false (s.data.map sepRepl)).map lowerChar
      = collapseAux false ((s.data.map lowerChar).map sepRepl)
  rw [← collapseAux_map_lower]
  congr 1
  rw [List.map_map, List.map_map]
  exact List.map_congr_left (fun c _ => (sepRepl_lowerChar c).symm)

theorem takeWhile_take_eq : ∀ (l : List Char) (n : Nat), (∀ c ∈ l.take n, c ≠ '-') →
    (l.takeWhile (fun c => c != '-')).take n = l.take n := by
  intro l
  induction l with
  | nil => intro n _; simp
  | cons c rest ih =>
    intro n h
    cases n with
    | zero => simp
    | succ m =>
      have hc : c ≠ '-' := h c (by simp)
      have hc2 : (c != '-') = true := by simp [hc]
      simp only [List.takeWhile_cons, hc2, if_true, List.take_succ_cons]
      rw [ih m (fun u hu => h u (by simp [hu]))]

theorem isHexChar_ne_dash {c : Char} (h : isHexChar c = true) : c ≠ '-' := by
  intro e
  rw [e] at h
  exact absurd h (by decide)

theorem splitHead_take_eq {id : String} (hhex : ∀ c ∈ (strTake id 4).data, isHexChar c = true) :
    strTake (splitHead id) 4 = strTake id 4 := by
  apply strEq_of_data
  show (id.data.takeWhile (fun c => c != '-')).take 4 = id.data.take 4
  exact takeWhile_take_eq id.data 4 (fun c hc => isHexChar_ne_dash (hhex c hc))

/-! ## Pipeline lemmas -/

theorem runItem_elim {s s2 : Store} {it : BWItem} (h : runItem s it = some s2) :
    ∃ nm c, it.passname = some nm ∧ it.format = some c ∧
      s2 = pass_insert (if pass_exists s nm then remove_force s nm else s) nm c := by
  unfold runItem at h
  cases hpn : it.passname with
  | none => rw [hpn] at h; simp at h
  | some nm =>
    cases hf : it.format with
    | none => rw [hpn, hf] at h; simp at h
    | some c =>
      rw [hpn, hf] at h
      exact ⟨nm, c, rfl, rfl, (Option.some.inj h).symm⟩

theorem runItem_preserve {s : Store} {it : BWItem} {s2 : Store} {n c : String}
    (h : runItem s it = some s2) (hm : (n, c) ∈ s) (hne : it.passname ≠ some n) :
    (n, c) ∈ s2 := by
  obtain ⟨nm, cc, hpn, hf, rfl⟩ := runItem_elim h
  have hnm : n ≠ nm := fun e => hne (by rw [hpn, e])
  unfold pass_insert
  apply List.mem_append.mpr
  left
  by_cases he : pass_exists s nm
  · simp only [he, if_true]
    unfold remove_force
    exact List.mem_filter.mpr ⟨hm, by simp [hnm]⟩
  · simp only [he, if_false]
    exact hm

theorem runPipeline_preserve : ∀ (items : List BWItem) (s s2 : Store) (n c : String),
    runPipeline s items = some s2 → (n, c) ∈ s → (∀ it ∈ items, it.passname ≠ some n) →
    (n, c) ∈ s2 := by
  intro items
  induction items with
  | nil =>
    intro s s2 n c h hm _
    rw [← Option.some.inj h]
    exact hm
  | cons it rest ih =>
    intro s s2 n c h hm hne
    unfold runPipeline at h
    cases hr : runItem s it with
    | none => rw [hr] at h; simp at h
    | some s1 =>
      rw [hr] at h
      exact ih s1 s2 n c h (runItem_preserve hr hm (hne it (by simp)))
        (fun u hu => hne u (by simp [hu]))

theorem syncedNames_cons_cases {it : BWItem} {rest : List BWItem} {synced : List String}
    (h : syncedNames (it :: rest) = some synced) :
    ∃ nm synced2, it.passname = some nm ∧ syncedNames rest = some synced2 ∧
      synced = nm :: synced2 := by
  unfold syncedNames at h
  rw [List.mapM_cons] at h
  cases hpn : it.passname with
  | none => rw [hpn] at h; simp at h
  | some nm =>
    rw [hpn] at h
    cases hr : List.mapM BWItem.passname rest with
    | none => rw [hr] at h; simp at h
    | some l =>
      rw [hr] at h
      simp at h
      exact ⟨nm, l, rfl, hr, h.symm⟩

theorem mem_syncedNames : ∀ {items : List BWItem} {synced : List String},
    syncedNames items = some synced → ∀ {n}, n ∈ synced →
    ∃ it ∈ items, it.passname = some n := by
  intro items
  induction items with
  | nil =>
    intro synced h n hn
    have h2 : ([] : List String) = synced := Option.some.inj h
    rw [← h2] at hn
    simp at hn
  | cons it rest ih =>
    intro synced h n hn
    obtain ⟨nm, s2, hpn, hr, rfl⟩ := syncedNames_cons_cases h
    rcases List.mem_cons.mp hn with rfl | hn2
    · exact ⟨it, by simp, hpn⟩
    · obtain ⟨it2, h1, h2⟩ := ih hr hn2
      exact ⟨it2, by simp [h1], h2⟩

theorem synced_of_mem : ∀ {items : List BWItem} {synced : List String},
    syncedNames items = some synced → ∀ {it}, it ∈ items → ∀ {n}, it.passname = some n →
    n ∈ synced := by
  intro items
  induction items with
  | nil => intro synced _ it hit; simp at hit
  | cons hd rest ih =>
    intro synced h it hit n hpn
    obtain ⟨nm, s2, hpn2, hr, rfl⟩ := syncedNames_cons_cases h
    rcases List.mem_cons.mp hit with rfl | h2
    · rw [hpn] at hpn2
      rw [← Option.some.inj hpn2]
      simp
    · exact List.mem_cons_of_mem _ (ih hr h2 hpn)

theorem not_mem_syncedNames {items : List BWItem} {synced : List String}
    (h : syncedNames items = some synced) {n} (hn : n ∉ synced) :
    ∀ it ∈ items, it.passname ≠ some n :=
  fun _it hit he => hn (synced_of_mem h hit he)

theorem find?_remove_ne {s : Store} {n nm : String} (hne : n ≠ nm) :
    (remove_force s nm).find? (fun p => p.1 == n) = s.find? (fun p => p.1 == n) := by
  unfold remove_force
  induction s with
  | nil => rfl
  | cons p rest ih =>
    by_cases hp : p.1 = nm
    · have h1 : (!(p.1 == nm)) = false := by simp [hp]
      have h2 : (p.1 == n) = false := by simp [hp, Ne.symm hne]
      simp [List.filter_cons, h1, List.find?_cons, h2, ih]
    · have h1 : (!(p.1 == nm)) = true := by simp [hp]
      by_cases hn2 : p.1 = n
      · have h2 : (p.1 == n) = true := by simp [hn2]
        simp [List.filter_cons, h1, List.find?_cons, h2]
      · have h2 : (p.1 == n) = false := by simp [hn2]
        simp [List.filter_cons, h1, List.find?_cons, h2, ih]

theorem find?_remove_self (s : Store) (nm : String) :
    (remove_force s nm).find? (fun p => p.1 == nm) = none := by
  rw [List.find?_eq_none]
  intro p hp
  have h2 := (List.mem_filter.mp hp).2
  simp at h2
  simp [h2]

theorem find?_not_exists {s : Store} {n : String} (h : pass_exists s n = false) :
    s.find? (fun p => p.1 == n) = none := by
  rw [List.find?_eq_none]
  intro p hp
  unfold pass_exists at h
  rw [List.any_eq_false] at h
  exact h p hp

theorem lookupStore_runItem {s s2 : Store} {it : BWItem} {nm c : String}
    (hpn : it.passname = some nm) (hf : it.format = some c)
    (h : runItem s it = some s2) (n : String) :
    lookupStore s2 n = if n = nm then some c else lookupStore s n := by
  obtain ⟨nm2, c2, hpn2, hf2, rfl⟩ := runItem_elim h
  rw [hpn] at hpn2
  rw [hf] at hf2
  obtain rfl : nm = nm2 := Option.some.inj hpn2
  obtain rfl : c = c2 := Option.some.inj hf2
  unfold lookupStore pass_insert
  rw [List.find?_append]
  by_cases hn : n = nm
  · subst hn
    have hbase : (if pass_exists s n then remove_force s n else s).find?
        (fun p => p.1 == n) = none := by
      by_cases he : pass_exists s n
      · simp only [he, if_true]
        exact find?_remove_self s n
      · simp only [he, if_false]
        exact find?_not_exists (by simpa using he)
    simp [hbase]
  · have htail : ([(nm, c)] : Store).find? (fun p => p.1 == n) = none := by
      simp [List.find?_cons, show (nm == n) = false by simp [Ne.symm hn]]
    by_cases he : pass_exists s nm
    · simp only [he, if_true, find?_remove_ne hn, htail]
      simp [hn]
    · simp only [he, if_false, htail]
      simp [hn]

theorem runPipeline_lookup : ∀ (items : List BWItem) (s s2 : Store),
    runPipeline s items = some s2 → ∀ n : String,
    lookupStore s2 n = (match lastWrite items n with
      | some c => some c
      | none => lookupStore s n) := by
  intro items
  induction items with
  | nil =>
    intro s s2 h n
    rw [← Option.some.inj h]
    simp [lastWrite]
  | cons it rest ih =>
    intro s s2 h n
    unfold runPipeline at h
    cases hr : runItem s it with
    | none => rw [hr] at h; simp at h
    | some s1 =>
      rw [hr] at h
      obtain ⟨nm, c, hpn, hf, _⟩ := runItem_elim hr
      have hstep := lookupStore_runItem hpn hf hr n
      have hrec := ih s1 s2 h n
      cases hlw : lastWrite rest n with
      | some c2 =>
        rw [hlw] at hrec
        simp only [lastWrite, hlw]
        exact hrec
      | none =>
        rw [hlw] at hrec
        simp only [lastWrite, hlw]
        rw [hrec, hstep]
        by_cases hn : n = nm
        · subst hn
          simp [hpn, hf]
        · have : ¬(it.passname = some n) := by
            rw [hpn]
            intro e
            exact hn (Option.some.inj e).symm
          simp [this, hn]

theorem lastWrite_cons (it : BWItem) (rest : List BWItem) (n : String) :
    lastWrite (it :: rest) n = (match lastWrite rest n with
      | some c => some c
      | none => if it.passname = some n then it.format else none) := rfl

theorem lastWrite_eq_some : ∀ {items : List BWItem} {n c : String},
    lastWrite items n = some c → ∃ it ∈ items, it.passname = some n ∧ it.format = some c := by
  intro items
  induction items with
  | nil => intro n c h; simp [lastWrite] at h
  | cons hd rest ih =>
    intro n c h
    unfold lastWrite at h
    cases hlw : lastWrite rest n with
    | some c2 =>
      rw [hlw] at h
      obtain ⟨it, hit, h1, h2⟩ := ih hlw
      refine ⟨it, by simp [hit], h1, ?_⟩
      rw [h2]
      exact h
    | none =>
      rw [hlw] at h
      have h2 : (if hd.passname = some n then hd.format else none) = some c := h
      by_cases hp : hd.passname = some n
      · rw [if_pos hp] at h2
        exact ⟨hd, by simp, hp, h2⟩
      · rw [if_neg hp] at h2
        simp at h2

theorem lastWrite_isSome : ∀ {items : List BWItem} {s s2 : Store} {n : String},
    runPipeline s items = some s2 → (∃ it ∈ items, it.passname = some n) →
    lastWrite items n ≠ none := by
  intro items
  induction items with
  | nil => intro s s2 n _ hex; simp at hex
  | cons hd rest ih =>
    intro s s2 n h hex
    unfold runPipeline at h
    cases hr : runItem s hd with
    | none => rw [hr] at h; simp at h
    | some s1 =>
      rw [hr] at h
      obtain ⟨it, hmem, hpn⟩ := hex
      cases hlw : lastWrite rest n with
      | some c =>
        rw [lastWrite_cons, hlw]
        show (some c : Option String) ≠ none
        simp
      | none =>
        rw [lastWrite_cons, hlw]
        rcases List.mem_cons.mp hmem with heq | hmem2
        · obtain ⟨nm, c, hpn2, hf, _⟩ := runItem_elim hr
          rw [heq] at hpn
          show (if hd.passname = some n then hd.format else none) ≠ none
          rw [if_pos hpn, hf]
          simp
        · exact absurd hlw (ih h ⟨it, hmem2, hpn⟩)

/-! ## Unlock-loop lemmas -/

theorem length_pos_of_ne {s : String} (h : s ≠ "") : s.length > 0 := by
  cases hs : s.data with
  | nil => exact absurd (strEq_of_data (by rw [hs])) h
  | cons c l =>
    show s.data.length > 0
    rw [hs]
    simp

theorem unlockLoop_ne_empty : ∀ (o : Nat → String) (fuel i : Nat) (r : String),
    unlockLoop o fuel i = some r → r ≠ "" := by
  intro o fuel
  induction fuel with
  | zero => intro i r h; simp [unlockLoop] at h
  | succ f ih =>
    intro i r h
    unfold unlockLoop at h
    by_cases hl : (o i).length > 0
    · simp only [hl, if_true] at h
      rw [← Option.some.inj h]
      intro e
      rw [e] at hl
      simp at hl
    · simp only [hl, if_false] at h
      exact ih (i + 1) r h

theorem unlockLoop_first : ∀ (fuel : Nat) (o : Nat → String) (i m : Nat),
    m < fuel → o (i + m) ≠ "" → (∀ k < m, o (i + k) = "") →
    unlockLoop o fuel i = some (o (i + m)) := by
  intro fuel
  induction fuel with
  | zero => intro o i m hm; omega
  | succ f ih =>
    intro o i m hm hnm hk
    cases m with
    | zero =>
      unfold unlockLoop
      simp only [Nat.add_zero] at hnm
      simp [length_pos_of_ne hnm]
    | succ m2 =>
      have h0 : o i = "" := by
        have := hk 0 (by omega)
        simpa using this
      unfold unlockLoop
      have hl : ¬((o i).length > 0) := by simp [h0]
      simp only [hl, if_false]
      have harg : i + (m2 + 1) = (i + 1) + m2 := by omega
      rw [harg] at hnm ⊢
      exact ih o (i + 1) m2 (by omega) hnm (fun k hk2 => by
        have := hk (k + 1) (by omega)
        rw [show i + (k + 1) = i + 1 + k by omega] at this
        exact this)

/-! ## Line-level lemmas -/

theorem formatLines_of_pairs {it : BWItem} {d : List Entry} (hd : it.formatPairs = some d)
    {ls : List String} (hls : it.formatLines = some ls) : ls = d.filterMap renderEntry := by
  have h3 : it.formatLines = some (d.filterMap renderEntry) := by
    unfold BWItem.formatLines
    rw [hd]
    rfl
  rw [hls] at h3
  exact Option.some.inj h3

theorem line_of_pair {it : BWItem} {d : List Entry} (hd : it.formatPairs = some d)
    {ls : List String} (hls : it.formatLines = some ls) {k v : String}
    (hp : (k, some v) ∈ d) : (k ++ ": " ++ v) ∈ ls := by
  rw [formatLines_of_pairs hd hls]
  exact List.mem_filterMap.mpr ⟨(k, some v), hp, rfl⟩

theorem filterMap_render_length : ∀ d : List Entry,
    (d.filterMap renderEntry).length = (d.filter (fun p => p.2.isSome)).length := by
  intro d
  induction d with
  | nil => rfl
  | cons p rest ih =>
    cases hpv : p.2 with
    | none =>
      have hr : renderEntry p = none := by simp [renderEntry, hpv]
      simp [List.filterMap_cons, List.filter_cons, hpv, hr, ih]
    | some v =>
      have hr : renderEntry p = some (p.1 ++ ": " ++ v) := by simp [renderEntry, hpv]
      simp [List.filterMap_cons, List.filter_cons, hpv, hr, ih]

theorem urlLines_spec : ∀ (us : List URIEntry) (i : Nat), (∀ u ∈ us, u.uri ≠ none) →
    ((urlPairsFrom i us).filterMap renderEntry).length = us.length ∧
    (∀ j, j < us.length → ∀ v, (us.getD j ⟨none⟩).uri = some v →
      ((urlPairsFrom i us).filterMap renderEntry).getD j ""
        = "URL " ++ natStr (i + j + 1) ++ ": " ++ v) := by
  intro us
  induction us with
  | nil => intro i _; simp [urlPairsFrom]
  | cons u rest ih =>
    intro i hv
    have hu : u.uri ≠ none := hv u (by simp)
    obtain ⟨v0, hv0⟩ : ∃ v0, u.uri = some v0 := Option.ne_none_iff_exists'.mp hu
    have ihr := ih (i + 1) (fun x hx => hv x (by simp [hx]))
    have hr : renderEntry ("URL " ++ natStr (i + 1), u.uri)
        = some ("URL " ++ natStr (i + 1) ++ ": " ++ v0) := by simp [renderEntry, hv0]
    constructor
    · simp [urlPairsFrom, List.filterMap_cons, hr, ihr.1]
    · intro j hj v hjv
      cases j with
      | zero =>
        have : u.uri = some v := by simpa using hjv
        rw [hv0] at this
        obtain rfl : v0 = v := Option.some.inj this
        simp [urlPairsFrom, List.filterMap_cons, hr]
      | succ j2 =>
        have hrec := ihr.2 j2 (by simpa using hj) v (by simpa using hjv)
        have harith : i + 1 + j2 + 1 = i + (j2 + 1) + 1 := by omega
        rw [harith] at hrec
        simp only [urlPairsFrom, List.filterMap_cons, hr, List.getD_cons_succ]
        exact hrec

theorem customPairsFrom_getD_mem : ∀ (fs : List CustomField) (i j : Nat), j < fs.length →
    (customKey (i + j + 1) (fs.getD j ⟨"", none⟩).name, (fs.getD j ⟨"", none⟩).value) ∈
      customPairsFrom i fs := by
  intro fs
  induction fs with
  | nil => intro i j hj; simp at hj
  | cons f rest ih =>
    intro i j hj
    cases j with
    | zero => simp [customPairsFrom]
    | succ j2 =>
      have hrec := ih (i + 1) j2 (by simpa using hj)
      have harith : i + 1 + j2 + 1 = i + (j2 + 1) + 1 := by omega
      rw [harith] at hrec
      simp only [customPairsFrom, List.getD_cons_succ]
      exact List.mem_cons_of_mem _ hrec

theorem attachPairsFrom_getD_mem : ∀ (ats : List Attachment) (i j : Nat), j < ats.length →
    (attachKey (i + j) " File Name", (ats.getD j ⟨none, none, none⟩).fileName)
        ∈ attachPairsFrom i ats ∧
    (attachKey (i + j) " File Size", (ats.getD j ⟨none, none, none⟩).sizeName)
        ∈ attachPairsFrom i ats ∧
    (attachKey (i + j) " URL", (ats.getD j ⟨none, none, none⟩).url)
        ∈ attachPairsFrom i ats := by
  intro ats
  induction ats with
  | nil => intro i j hj; simp at hj
  | cons a rest ih =>
    intro i j hj
    cases j with
    | zero => simp [attachPairsFrom]
    | succ j2 =>
      have hrec := ih (i + 1) j2 (by simpa using hj)
      have harith : i + 1 + j2 = i + (j2 + 1) := by omega
      rw [harith] at hrec
      simp only [attachPairsFrom, List.getD_cons_succ]
      refine ⟨?_, ?_, ?_⟩
      · exact List.mem_cons_of_mem _ (List.mem_cons_of_mem _ (List.mem_cons_of_mem _ hrec.1))
      · exact List.mem_cons_of_mem _ (List.mem_cons_of_mem _ (List.mem_cons_of_mem _ hrec.2.1))
      · exact List.mem_cons_of_mem _ (List.mem_cons_of_mem _ (List.mem_cons_of_mem _ hrec.2.2))

/-! ## Claim theorems -/

/-- C1: for a source item with type code in {1,2,3,4} whose identifier begins
with four hex characters, the canonical entry name is the lower-cased display
name with `-`, `_`, `|` replaced by spaces and every run of spaces replaced
by a single hyphen, suffixed with `-<type-label>-` and the first four
characters of the identifier; and the name depends only on identifier,
display name and type code. -/
theorem passname_matches_spec (it it2 : BWItem)
    (h14 : it.type = 1 ∨ it.type = 2 ∨ it.type = 3 ∨ it.type = 4)
    (hhex : ∀ c ∈ (strTake it.id 4).data, isHexChar c = true)
    (hid : it.id = it2.id) (hname : it.name = it2.name) (hty : it.type = it2.type) :
    (∃ nm, it.passname = some nm ∧ passnameSpec it = some nm) ∧
    it.passname = it2.passname := by
  constructor
  · have hlab : ∃ label, it.item_type = some label := by
      unfold BWItem.item_type
      rcases h14 with h | h | h | h <;> simp [h]
    obtain ⟨label, hlab⟩ := hlab
    refine ⟨collapseSpaces (sepToSpace (lowerStr it.name)) ++ "-" ++ label ++ "-" ++
      strTake it.id 4, ?_, ?_⟩
    · unfold BWItem.passname
      rw [hlab]
      simp only [Option.map_some']
      rw [lower_collapse_comm, splitHead_take_eq hhex]
    · unfold passnameSpec
      rw [hlab]
      rfl
  · unfold BWItem.passname BWItem.item_type
    simp only [hid, hname, hty]

theorem passname_matches_spec_witness :
    ((∃ nm, itemLogin1.passname = some nm ∧ passnameSpec itemLogin1 = some nm) ∧
      itemLogin1.passname = itemLogin1b.passname) ∧
    itemLogin1.passname = some "my-bank-login-abc1" :=
  ⟨passname_matches_spec itemLogin1 itemLogin1b (Or.inl rfl) (by decide) rfl rfl rfl,
    by decide⟩

/-- C4: type codes 1, 2, 3, 4 dispatch to the login, note, card and identity
labels respectively, and any other integer type code makes `item_type` raise,
so formatting and naming fail and no body is produced. -/
theorem type_dispatch (it : BWItem) :
    (it.type = 1 → it.item_type = some "login") ∧
    (it.type = 2 → it.item_type = some "note") ∧
    (it.type = 3 → it.item_type = some "card") ∧
    (it.type = 4 → it.item_type = some "identity") ∧
    (it.type ≠ 1 ∧ it.type ≠ 2 ∧ it.type ≠ 3 ∧ it.type ≠ 4 →
      it.item_type = none ∧ it.formatPairs = none ∧ it.formatLines = none ∧
        it.format = none ∧ it.passname = none) := by
  refine ⟨?_, ?_, ?_, ?_, ?_⟩
  · intro h; simp [BWItem.item_type, h]
  · intro h; simp [BWItem.item_type, h]
  · intro h; simp [BWItem.item_type, h]
  · intro h; simp [BWItem.item_type, h]
  · intro h
    obtain ⟨h1, h2, h3, h4⟩ := h
    have ht : it.item_type = none := by simp [BWItem.item_type, h1, h2, h3, h4]
    refine ⟨ht, ?_, ?_, ?_, ?_⟩
    · simp [BWItem.formatPairs, ht]
    · simp [BWItem.formatLines, BWItem.formatPairs, ht]
    · simp [BWItem.format, BWItem.formatLines, BWItem.formatPairs, ht]
    · simp [BWItem.passname, ht]

theorem type_dispatch_witness :
    BWItem.item_type itemBad = none ∧ BWItem.formatPairs itemBad = none ∧
    BWItem.formatLines itemBad = none ∧ BWItem.format itemBad = none ∧
    BWItem.passname itemBad = none :=
  (type_dispatch itemBad).2.2.2.2 (by decide)

/-- C2: a login item with exactly one URI gets a single line labeled `URL`
carrying that URI's value; with more than one URI it gets lines labeled
`URL 1` … `URL N`, one per URI, in input order (as a sublist of the body
lines, with the j-th URL line carrying the j-th URI's value). -/
theorem login_url_lines (it : BWItem) (lg : LoginData)
    (h1 : it.item_type = some "login") (h2 : it.login = some lg)
    (ls : List String) (hls : it.formatLines = some ls) :
    (∀ u v, lg.uris = some [u] → u.uri = some v → ("URL: " ++ v) ∈ ls) ∧
    (∀ us, lg.uris = some us → 1 < us.length → (∀ u ∈ us, u.uri ≠ none) →
      ∃ urlLines : List String,
        urlLines.Sublist ls ∧ urlLines.length = us.length ∧
        ∀ j, j < us.length → ∀ v, (us.getD j ⟨none⟩).uri = some v →
          urlLines.getD j "" = "URL " ++ natStr (j + 1) ++ ": " ++ v) := by
  have hd := formatPairs_login h1 h2
  constructor
  · intro u v hu huv
    show ("URL" ++ ": " ++ v) ∈ ls
    apply line_of_pair hd hls
    apply List.mem_append.mpr
    apply Or.inl
    apply List.mem_append.mpr
    apply Or.inl
    apply List.mem_append.mpr
    apply Or.inl
    have hurl : urlPairs (lg.uris.getD []) = [("URL", some v)] := by
      rw [hu]
      simp [urlPairs, List.headD, huv]
    simp [loginPairs, hurl]
  · intro us hus hlen hv
    refine ⟨(urlPairsFrom 0 us).filterMap renderEntry, ?_, ?_, ?_⟩
    · rw [formatLines_of_pairs hd hls]
      have hurl : urlPairs (lg.uris.getD []) = urlPairsFrom 0 us := by
        rw [hus]
        simp only [Option.getD_some]
        unfold urlPairs
        rw [if_neg (by omega)]
      have hshape : ((("Name", some it.name) :: loginPairs lg) ++
          customPairsFrom 0 (it.fields.getD []) ++
          attachPairsFrom 0 (it.attachments.getD []) ++ [("Notes", it.notes)])
          = [("Name", some it.name), ("Username", lg.username), ("Password", lg.password),
              ("TOTP", lg.totp)] ++ (urlPairsFrom 0 us ++
            (customPairsFrom 0 (it.fields.getD []) ++ attachPairsFrom 0 (it.attachments.getD [])
              ++ [("Notes", it.notes)])) := by
        simp [loginPairs, hurl, List.append_assoc]
      rw [hshape, List.filterMap_append, List.filterMap_append]
      exact (List.sublist_append_left _ _).trans (List.sublist_append_right _ _)
    · exact (urlLines_spec us 0 hv).1
    · intro j hj v hjv
      have := (urlLines_spec us 0 hv).2 j hj v hjv
      rw [this]
      rw [show (0 : Nat) + j + 1 = j + 1 by omega]

theorem login_url_lines_witness :
    ("URL: https://bank.example") ∈ ["Name: My Bank", "Username: user", "Password: hunter2",
      "URL: https://bank.example", "Notes: hello"] :=
  (login_url_lines itemLogin1 ⟨some "user", some "hunter2", none,
      some [⟨some "https://bank.example"⟩]⟩ rfl rfl _ (by decide)).1
    ⟨some "https://bank.example"⟩ "https://bank.example" rfl rfl

/-- C3: every line of the body comes from a record field whose value is
non-null, and the number of lines equals the number of non-null fields, so a
null field contributes neither its label nor any value text. -/
theorem null_fields_omitted (it : BWItem) (d : List Entry) (ls : List String)
    (hd : it.formatPairs = some d) (hls : it.formatLines = some ls) :
    (∀ l ∈ ls, ∃ k v, (k, some v) ∈ d ∧ l = k ++ ": " ++ v) ∧
    ls.length = (d.filter (fun p => p.2.isSome)).length := by
  rw [formatLines_of_pairs hd hls]
  constructor
  · intro l hl
    obtain ⟨p, hp, hr⟩ := List.mem_filterMap.mp hl
    cases hpv : p.2 with
    | none =>
      unfold renderEntry at hr
      rw [hpv] at hr
      simp at hr
    | some v =>
      refine ⟨p.1, v, ?_, ?_⟩
      · have hpe : (p.1, some v) = p := by
          rw [← hpv]
        rw [hpe]
        exact hp
      · unfold renderEntry at hr
        rw [hpv] at hr
        simp at hr
        exact hr.symm
  · exact filterMap_render_length d

theorem null_fields_omitted_witness :
    BWItem.formatLines itemLogin2 = some ["Name: Shop_Site", "Username: u2", "TOTP: JBSWY3",
      "URL 1: https://a.example", "URL 2: https://b.example",
      "[Custom Field 2] security question: blue", "Notes: two uris"] ∧
    (["Name: Shop_Site", "Username: u2", "TOTP: JBSWY3", "URL 1: https://a.example",
      "URL 2: https://b.example", "[Custom Field 2] security question: blue",
      "Notes: two uris"] : List String).length
      = (([("Name", some "Shop_Site"), ("Username", some "u2"), ("Password", none),
          ("TOTP", some "JBSWY3"), ("URL 1", some "https://a.example"),
          ("URL 2", some "https://b.example"), ("[Custom Field 1] pin", none),
          ("[Custom Field 2] security question", some "blue"),
          ("Notes", some "two uris")] : List Entry).filter (fun p => p.2.isSome)).length :=
  ⟨by decide,
    (null_fields_omitted itemLogin2
      [("Name", some "Shop_Site"), ("Username", some "u2"), ("Password", none),
        ("TOTP", some "JBSWY3"), ("URL 1", some "https://a.example"),
        ("URL 2", some "https://b.example"), ("[Custom Field 1] pin", none),
        ("[Custom Field 2] security question", some "blue"), ("Notes", some "two uris")]
      ["Name: Shop_Site", "Username: u2", "TOTP: JBSWY3", "URL 1: https://a.example",
        "URL 2: https://b.example", "[Custom Field 2] security question: blue",
        "Notes: two uris"]
      (by decide) (by decide)).2⟩

/-- C9: a login item whose URI list is empty or whose payload has no URI list
produces no record field labeled `URL` or `URL N`, and hence no such line. -/
theorem no_url_lines_when_no_uris (it : BWItem) (lg : LoginData)
    (h1 : it.item_type = some "login") (h2 : it.login = some lg)
    (hnou : lg.uris = none ∨ lg.uris = some []) (d : List Entry)
    (hd : it.formatPairs = some d) :
    ∀ p ∈ d, p.1 ≠ "URL" ∧ ∀ n : Nat, p.1 ≠ "URL " ++ natStr n := by
  have hd2 := formatPairs_login h1 h2
  rw [hd] at hd2
  have hde := Option.some.inj hd2
  have hu : lg.uris.getD [] = [] := by rcases hnou with h | h <;> simp [h]
  have hlp : loginPairs lg = [("Username", lg.username), ("Password", lg.password),
      ("TOTP", lg.totp)] := by
    simp [loginPairs, hu, urlPairs, urlPairsFrom]
  intro p hp
  rw [hde, hlp] at hp
  have hun : ∀ n : Nat, ("URL " ++ natStr n).data.head? = some 'U' := fun n => rfl
  rcases List.mem_append.mp hp with hp | hp
  · rcases List.mem_append.mp hp with hp | hp
    · rcases List.mem_append.mp hp with hp | hp
      · rcases List.mem_cons.mp hp with he | hp
        · rw [he]
          exact ⟨(by decide : ("Name" : String) ≠ "URL"), fun n => ne_of_head_vals
            (show ("Name" : String).data.head? = some 'N' from rfl) (hun n) (by decide)⟩
        · rcases List.mem_cons.mp hp with he | hp
          · rw [he]
            exact ⟨(by decide : ("Username" : String) ≠ "URL"), fun n => username_ne_urlN n⟩
          · rcases List.mem_cons.mp hp with he | hp
            · rw [he]
              exact ⟨(by decide : ("Password" : String) ≠ "URL"), fun n => ne_of_head_vals
                (show ("Password" : String).data.head? = some 'P' from rfl) (hun n) (by decide)⟩
            · rcases List.mem_cons.mp hp with he | hp
              · rw [he]
                exact ⟨(by decide : ("TOTP" : String) ≠ "URL"), fun n => ne_of_head_vals
                  (show ("TOTP" : String).data.head? = some 'T' from rfl) (hun n) (by decide)⟩
              · simp at hp
      · have hh := mem_customPairsFrom_head hp
        exact ⟨ne_of_head_vals hh (show ("URL" : String).data.head? = some 'U' from rfl)
            (by decide),
          fun n => ne_of_head_vals hh (hun n) (by decide)⟩
    · have hh := mem_attachPairsFrom_head hp
      exact ⟨ne_of_head_vals hh (show ("URL" : String).data.head? = some 'U' from rfl)
          (by decide),
        fun n => ne_of_head_vals hh (hun n) (by decide)⟩
  · rcases List.mem_cons.mp hp with he | hp
    · rw [he]
      exact ⟨(by decide : ("Notes" : String) ≠ "URL"), fun n => ne_of_head_vals
        (show ("Notes" : String).data.head? = some 'N' from rfl) (hun n) (by decide)⟩
    · simp at hp

theorem no_url_lines_when_no_uris_witness :
    BWItem.formatPairs itemLogin0 = some [("Name", some "NoUris"), ("Username", some "u0"),
      ("Password", some "p0"), ("TOTP", none), ("Notes", none)] ∧
    ("Username" : String) ≠ "URL" ∧ ("Username" : String) ≠ "URL " ++ natStr 1 :=
  have hc := no_url_lines_when_no_uris itemLogin0 ⟨some "u0", some "p0", none, none⟩ rfl rfl
    (Or.inl rfl)
    [("Name", some "NoUris"), ("Username", some "u0"), ("Password", some "p0"),
      ("TOTP", none), ("Notes", none)] (by decide)
    ("Username", some "u0") (by decide)
  ⟨by decide, hc.1, hc.2 1⟩

/-- C10: the number in a custom-field or attachment label is fixed by the
element's position in the input list (custom field at 0-based position j is
labeled j+1, attachment at position j is labeled j), independently of every
other element's value, and a non-null custom field still produces its line
even when earlier fields are null, so emitted numbering can have gaps. -/
theorem label_numbering_input_position (it : BWItem) (d : List Entry)
    (hd : it.formatPairs = some d) (fs : List CustomField) (hfs : it.fields.getD [] = fs)
    (ats : List Attachment) (hats : it.attachments.getD [] = ats) :
    (∀ j, j < fs.length →
      (customKey (j + 1) (fs.getD j ⟨"", none⟩).name, (fs.getD j ⟨"", none⟩).value) ∈ d) ∧
    (∀ j, j < ats.length →
      (attachKey j " File Name", (ats.getD j ⟨none, none, none⟩).fileName) ∈ d ∧
      (attachKey j " File Size", (ats.getD j ⟨none, none, none⟩).sizeName) ∈ d ∧
      (attachKey j " URL", (ats.getD j ⟨none, none, none⟩).url) ∈ d) ∧
    (∀ ls, it.formatLines = some ls → ∀ j, j < fs.length → ∀ v,
      (fs.getD j ⟨"", none⟩).value = some v →
      (customKey (j + 1) (fs.getD j ⟨"", none⟩).name ++ ": " ++ v) ∈ ls) := by
  have hmap := formatPairs_eq it
  rw [hd] at hmap
  cases htp : typePairsOf it with
  | none => rw [htp] at hmap; simp at hmap
  | some tp =>
    rw [htp] at hmap
    simp only [Option.map_some'] at hmap
    have hde := Option.some.inj hmap
    have hcmem : ∀ j, j < fs.length →
        (customKey (j + 1) (fs.getD j ⟨"", none⟩).name, (fs.getD j ⟨"", none⟩).value) ∈ d := by
      intro j hj
      rw [hde]
      apply List.mem_append.mpr
      apply Or.inl
      apply List.mem_append.mpr
      apply Or.inl
      apply List.mem_append.mpr
      apply Or.inr
      have := customPairsFrom_getD_mem fs 0 j hj
      rw [show (0 : Nat) + j + 1 = j + 1 by omega] at this
      rw [hfs]
      simpa using this
    refine ⟨hcmem, ?_, ?_⟩
    · intro j hj
      have := attachPairsFrom_getD_mem ats 0 j hj
      rw [show (0 : Nat) + j = j by omega] at this
      have hmem : ∀ q : Entry, q ∈ attachPairsFrom 0 (it.attachments.getD []) → q ∈ d := by
        intro q hq
        rw [hde]
        apply List.mem_append.mpr
        apply Or.inl
        apply List.mem_append.mpr
        apply Or.inr
        exact hq
      rw [hats] at hmem
      exact ⟨hmem _ (by simpa using this.1), hmem _ (by simpa using this.2.1),
        hmem _ (by simpa using this.2.2)⟩
    · intro ls hls j hj v hv
      have hp := hcmem j hj
      rw [hv] at hp
      exact line_of_pair hd hls hp

theorem label_numbering_input_position_witness :
    ("[Custom Field 2] security question", some "blue") ∈
      [("Name", some "Shop_Site"), ("Username", some "u2"), ("Password", none),
        ("TOTP", some "JBSWY3"), ("URL 1", some "https://a.example"),
        ("URL 2", some "https://b.example"), ("[Custom Field 1] pin", none),
        ("[Custom Field 2] security question", some "blue"), ("Notes", some "two uris")] ∧
    ("[Custom Field 2] security question" ++ ": " ++ "blue") ∈
      ["Name: Shop_Site", "Username: u2", "TOTP: JBSWY3", "URL 1: https://a.example",
        "URL 2: https://b.example", "[Custom Field 2] security question: blue",
        "Notes: two uris"] :=
  have hc := label_numbering_input_position itemLogin2
    [("Name", some "Shop_Site"), ("Username", some "u2"), ("Password", none),
      ("TOTP", some "JBSWY3"), ("URL 1", some "https://a.example"),
      ("URL 2", some "https://b.example"), ("[Custom Field 1] pin", none),
      ("[Custom Field 2] security question", some "blue"), ("Notes", some "two uris")]
    (by decide) [⟨"pin", none⟩, ⟨"security question", some "blue"⟩] rfl [] (by decide)
  have h1 := hc.1 1 (by decide)
  have h2 := hc.2.2 ["Name: Shop_Site", "Username: u2", "TOTP: JBSWY3",
      "URL 1: https://a.example", "URL 2: https://b.example",
      "[Custom Field 2] security question: blue", "Notes: two uris"] (by decide) 1 (by decide)
      "blue" (by decide)
  ⟨h1, h2⟩

/-- C5 counterexample: a note item with one attachment and null notes.  Its
first (and only) attachment is labeled `Attachment 0`, not `Attachment 1`,
and the body ends with the attachment lines — no line starts with `Notes`. -/
theorem attachment_numbering_counterexample :
    BWItem.formatLines itemNote = some ["Name: Wifi", "Attachment 0 File Name: scan.pdf",
      "Attachment 0 File Size: 1 KB", "Attachment 0 URL: https://files.example/scan.pdf"] ∧
    "Attachment 0 File Name: scan.pdf" ∈ (["Name: Wifi", "Attachment 0 File Name: scan.pdf",
      "Attachment 0 File Size: 1 KB",
      "Attachment 0 URL: https://files.example/scan.pdf"] : List String) ∧
    "Attachment 1 File Name: scan.pdf" ∉ (["Name: Wifi", "Attachment 0 File Name: scan.pdf",
      "Attachment 0 File Size: 1 KB",
      "Attachment 0 URL: https://files.example/scan.pdf"] : List String) ∧
    (["Name: Wifi", "Attachment 0 File Name: scan.pdf", "Attachment 0 File Size: 1 KB",
      "Attachment 0 URL: https://files.example/scan.pdf"] : List String).getLast?
      = some "Attachment 0 URL: https://files.example/scan.pdf" ∧
    (∀ l ∈ (["Name: Wifi", "Attachment 0 File Name: scan.pdf", "Attachment 0 File Size: 1 KB",
      "Attachment 0 URL: https://files.example/scan.pdf"] : List String),
      l.data.take 5 ≠ ("Notes" : String).data) := by
  refine ⟨by decide, by decide, by decide, by decide, by decide⟩

/-- C5 (amended): the record is the name pair, the type-specific block, the
custom fields labeled from 1 in input order, the attachments labeled from 0
in input order, and the notes pair, in that order; the body ends with a
`Notes` line when the notes value is non-null, and always ends with a
newline. -/
theorem body_block_order (it : BWItem) (tp : List Entry) (htp : typePairsOf it = some tp) :
    ∃ d ls,
      it.formatPairs = some d ∧
      d = (("Name", some it.name) :: tp) ++ customPairsFrom 0 (it.fields.getD []) ++
        attachPairsFrom 0 (it.attachments.getD []) ++ [("Notes", it.notes)] ∧
      it.formatLines = some ls ∧
      it.format = some (String.intercalate "\n" ls ++ "\n") ∧
      (String.intercalate "\n" ls ++ "\n").data.getLast? = some '\n' ∧
      (∀ v, it.notes = some v → ls.getLast? = some ("Notes: " ++ v)) := by
  have hmap := formatPairs_eq it
  rw [htp] at hmap
  simp only [Option.map_some'] at hmap
  refine ⟨_, (((("Name", some it.name) :: tp) ++ customPairsFrom 0 (it.fields.getD []) ++
    attachPairsFrom 0 (it.attachments.getD []) ++
    [("Notes", it.notes)]).filterMap renderEntry), hmap, rfl, ?_, ?_, ?_, ?_⟩
  · unfold BWItem.formatLines
    rw [hmap]
    rfl
  · unfold BWItem.format BWItem.formatLines
    rw [hmap]
    rfl
  · rw [String.data_append]
    exact List.getLast?_concat _
  · intro v hv
    rw [hv]
    rw [List.filterMap_append]
    have hlast : ([("Notes", some v)] : List Entry).filterMap renderEntry
        = ["Notes" ++ ": " ++ v] := rfl
    rw [hlast]
    exact List.getLast?_concat _

theorem body_block_order_witness :
    ∃ d ls,
      BWItem.formatPairs itemLogin1 = some d ∧
      d = (("Name", some "My Bank") :: [(("Username" : String), some "user"),
        ("Password", some "hunter2"), ("TOTP", (none : Option String)),
        ("URL", some "https://bank.example")]) ++ customPairsFrom 0 [] ++
        attachPairsFrom 0 [] ++ [("Notes", some "hello")] ∧
      BWItem.formatLines itemLogin1 = some ls ∧
      BWItem.format itemLogin1 = some (String.intercalate "\n" ls ++ "\n") ∧
      (String.intercalate "\n" ls ++ "\n").data.getLast? = some '\n' ∧
      (∀ v, itemLogin1.notes = some v → ls.getLast? = some ("Notes: " ++ v)) :=
  body_block_order itemLogin1 [("Username", some "user"), ("Password", some "hunter2"),
    ("TOTP", none), ("URL", some "https://bank.example")] (by decide)

/-- C6: a run only ever deletes destination entries whose name is the
canonical name of some current source item; a pre-existing entry whose name
matches no canonical name of the run survives with its content unchanged and
appears in the orphan warning list. -/
theorem orphans_preserved (s : Store) (items : List BWItem) (s2 : Store)
    (synced : List String) (h1 : runPipeline s items = some s2)
    (h2 : syncedNames items = some synced) (n c : String) (hm : (n, c) ∈ s)
    (hn : n ∉ synced) :
    (n, c) ∈ s2 ∧ n ∈ ignoredEntries (list_pass_names s) synced := by
  constructor
  · exact runPipeline_preserve items s s2 n c h1 hm (not_mem_syncedNames h2 hn)
  · unfold ignoredEntries list_pass_names
    apply List.mem_filter.mpr
    refine ⟨List.mem_map.mpr ⟨(n, c), hm, rfl⟩, ?_⟩
    simp [hn]

theorem orphans_preserved_witness :
    ("stale-entry", "old") ∈ ([("stale-entry", "old"), ("wifi-note-def6",
      "Name: Wifi\nAttachment 0 File Name: scan.pdf\nAttachment 0 File Size: 1 KB\nAttachment 0 URL: https://files.example/scan.pdf\n")] : Store) ∧
    "stale-entry" ∈ ignoredEntries (list_pass_names [("stale-entry", "old")])
      ["wifi-note-def6"] :=
  orphans_preserved [("stale-entry", "old")] [itemNote]
    [("stale-entry", "old"), ("wifi-note-def6",
      "Name: Wifi\nAttachment 0 File Name: scan.pdf\nAttachment 0 File Size: 1 KB\nAttachment 0 URL: https://files.example/scan.pdf\n")]
    ["wifi-note-def6"] (by decide) (by decide) "stale-entry" "old" (by decide) (by decide)

/-- C7: running the pipeline twice over an unchanged item list leaves every
synced entry with a byte-identical body under the same name; the body equals
the freshly formatted output of a source item with that canonical name, and
it does not depend on the destination store's prior contents. -/
theorem rerun_identical (s t : Store) (items : List BWItem) (s2 s3 t2 : Store)
    (synced : List String) (h1 : runPipeline s items = some s2)
    (h2 : runPipeline s2 items = some s3) (ht : runPipeline t items = some t2)
    (hs : syncedNames items = some synced) (n : String) (hn : n ∈ synced) :
    lookupStore s3 n = lookupStore s2 n ∧ lookupStore t2 n = lookupStore s2 n ∧
    ∃ c it, it ∈ items ∧ it.passname = some n ∧ it.format = some c ∧
      lookupStore s2 n = some c := by
  obtain ⟨it0, hit0, hpn0⟩ := mem_syncedNames hs hn
  have hlw := lastWrite_isSome h1 ⟨it0, hit0, hpn0⟩
  cases hlwe : lastWrite items n with
  | none => exact absurd hlwe hlw
  | some c =>
    have e1 := runPipeline_lookup items s s2 h1 n
    have e2 := runPipeline_lookup items s2 s3 h2 n
    have e3 := runPipeline_lookup items t t2 ht n
    rw [hlwe] at e1 e2 e3
    obtain ⟨it, hmem, hp, hf⟩ := lastWrite_eq_some hlwe
    exact ⟨by rw [e2, e1], by rw [e3, e1], c, it, hmem, hp, hf, e1⟩

theorem rerun_identical_witness :
    lookupStore [("wifi-note-def6",
      "Name: Wifi\nAttachment 0 File Name: scan.pdf\nAttachment 0 File Size: 1 KB\nAttachment 0 URL: https://files.example/scan.pdf\n")]
      "wifi-note-def6"
      = lookupStore [("wifi-note-def6",
      "Name: Wifi\nAttachment 0 File Name: scan.pdf\nAttachment 0 File Size: 1 KB\nAttachment 0 URL: https://files.example/scan.pdf\n")]
      "wifi-note-def6" ∧
    lookupStore [("other", "x"), ("wifi-note-def6",
      "Name: Wifi\nAttachment 0 File Name: scan.pdf\nAttachment 0 File Size: 1 KB\nAttachment 0 URL: https://files.example/scan.pdf\n")]
      "wifi-note-def6"
      = lookupStore [("wifi-note-def6",
      "Name: Wifi\nAttachment 0 File Name: scan.pdf\nAttachment 0 File Size: 1 KB\nAttachment 0 URL: https://files.example/scan.pdf\n")]
      "wifi-note-def6" ∧
    ∃ c it, it ∈ [itemNote] ∧ it.passname = some "wifi-note-def6" ∧ it.format = some c ∧
      lookupStore [("wifi-note-def6",
        "Name: Wifi\nAttachment 0 File Name: scan.pdf\nAttachment 0 File Size: 1 KB\nAttachment 0 URL: https://files.example/scan.pdf\n")]
        "wifi-note-def6" = some c :=
  rerun_identical [] [("other", "x")] [itemNote]
    [("wifi-note-def6",
      "Name: Wifi\nAttachment 0 File Name: scan.pdf\nAttachment 0 File Size: 1 KB\nAttachment 0 URL: https://files.example/scan.pdf\n")]
    [("wifi-note-def6",
      "Name: Wifi\nAttachment 0 File Name: scan.pdf\nAttachment 0 File Size: 1 KB\nAttachment 0 URL: https://files.example/scan.pdf\n")]
    [("other", "x"), ("wifi-note-def6",
      "Name: Wifi\nAttachment 0 File Name: scan.pdf\nAttachment 0 File Size: 1 KB\nAttachment 0 URL: https://files.example/scan.pdf\n")]
    ["wifi-note-def6"] (by decide) (by decide) (by decide) (by decide)
    "wifi-note-def6" (by decide)

/-- C8: whenever some invocation of the external unlock command produces a
non-empty output, the unlock loop returns the first such non-empty output as
the session token, and it never returns an empty string. -/
theorem unlock_first_nonempty (o : Nat → String) (i fuel : Nat)
    (hi : o i ≠ "") (hf : i < fuel) :
    (∃ j, j ≤ i ∧ (∀ k, k < j → o k = "") ∧ o j ≠ "" ∧
      unlockLoop o fuel 0 = some (o j)) ∧
    (∀ f r, unlockLoop o f 0 = some r → r ≠ "") := by
  constructor
  · have hex : ∃ j, o j ≠ "" := ⟨i, hi⟩
    refine ⟨Nat.find hex, Nat.find_min' hex hi, ?_, Nat.find_spec hex, ?_⟩
    · intro k hk
      exact not_not.mp (Nat.find_min hex hk)
    · have hmf : Nat.find hex < fuel := lt_of_le_of_lt (Nat.find_min' hex hi) hf
      have := unlockLoop_first fuel o 0 (Nat.find hex) hmf
        (by simpa using Nat.find_spec hex)
        (fun k hk => by simpa using not_not.mp (Nat.find_min hex hk))
      simpa using this
  · intro f r h
    exact unlockLoop_ne_empty o f 0 r h

theorem unlock_first_nonempty_witness :
    ((∃ j, j ≤ 1 ∧ (∀ k, k < j → (fun n => if n = 1 then "token" else "") k = "") ∧
      (fun n => if n = 1 then "token" else "") j ≠ "" ∧
      unlockLoop (fun n => if n = 1 then "token" else "") 3 0
        = some ((fun n => if n = 1 then "token" else "") j)) ∧
    (∀ f r, unlockLoop (fun n => if n = 1 then "token" else "") f 0 = some r → r ≠ "")) ∧
    unlockLoop (fun n => if n = 1 then "token" else "") 3 0 = some "token" :=
  ⟨unlock_first_nonempty (fun n => if n = 1 then "token" else "") 1 3 (by decide) (by decide),
    by decide⟩
